import Mathlib

/-!
# Verification of the `accompy` chord-accompaniment engine

Shallow embedding, in Lean 4, of the chord-symbol normalizer, chord-string
parser, score coercion, fixed-table pitch resolver, style-pattern lookup and
the builtin arranger of `accompy` (files `accompy/accompy.py` and
`accompy/patterns.py`), together with theorems settling the specification
claims about them.

Strings are modelled as `List Char` (Python `str`); Python `int`/`float`
arithmetic on beats, durations and volumes is modelled with `ℚ`, and Python's
`int(...)` truncation with `Int.tdiv` on the numerator/denominator of a
rational.  Fallible code returns `Except String`.
-/

/-- Python `str.strip()`: drop whitespace from both ends. -/
def stripL (l : List Char) : List Char :=
  ((l.dropWhile Char.isWhitespace).reverse.dropWhile Char.isWhitespace).reverse

/-- The sentinel symbols of `_normalize_chord_symbol`:
`('', 'n', 'N.C.', 'NC', '%', 'x')` pass through unchanged. -/
def sentinels : List (List Char) :=
  ["".data, "n".data, "N.C.".data, "NC".data, "%".data, "x".data]

/-- The ordered `replacements` table of `_normalize_chord_symbol`,
exactly in source order. -/
def replacements : List (List Char × List Char) :=
  [("maj7".data, "^7".data),
   ("maj9".data, "^9".data),
   ("maj".data, "^".data),
   ("min7".data, "-7".data),
   ("min".data, "-".data),
   ("m7".data, "-7".data),
   ("m9".data, "-9".data),
   ("m".data, "-".data),
   ("dim7".data, "o7".data),
   ("dim".data, "o".data),
   ("m7b5".data, "h7".data),
   ("ø7".data, "h7".data),
   ("ø".data, "h".data),
   ("sus4".data, "sus".data),
   ("sus2".data, "sus2".data),
   ("add9".data, "add9".data),
   ("add2".data, "add2".data)]

/-- Python `pat in s` (contiguous substring occurrence). -/
def hasSub (pat : List Char) : List Char → Bool
  | [] => pat.isPrefixOf []
  | c :: cs => pat.isPrefixOf (c :: cs) || hasSub pat cs

/-- Fuel-driven Python `str.replace`: scan left to right, replace each
non-overlapping occurrence of `pat` by `rep`.  The fuel is an upper bound on
the number of characters consumed; `replaceAll` instantiates it with the
length of the scanned list, which suffices for non-empty patterns. -/
def replaceAllFuel (pat rep : List Char) : Nat → List Char → List Char
  | 0, l => l
  | _ + 1, [] => []
  | fuel + 1, c :: cs =>
    if pat.isPrefixOf (c :: cs) && !pat.isEmpty then
      rep ++ replaceAllFuel pat rep fuel ((c :: cs).drop pat.length)
    else
      c :: replaceAllFuel pat rep fuel cs

/-- Python `s.replace(pat, rep)` (only ever called with non-empty `pat`). -/
def replaceAll (pat rep l : List Char) : List Char :=
  replaceAllFuel pat rep l.length l

/-- One iteration of the `for old, new in replacements` loop body of
`_normalize_chord_symbol`: replace a matched suffix, else replace every
`old + '/'` occurrence (slash-chord boundary), else leave unchanged. -/
def applyRep (r : List Char) (p : List Char × List Char) : List Char :=
  if p.1.isSuffixOf r then r.take (r.length - p.1.length) ++ p.2
  else if hasSub (p.1 ++ ['/']) r then replaceAll (p.1 ++ ['/']) (p.2 ++ ['/']) r
  else r

/-- The full replacement loop of `_normalize_chord_symbol`. -/
def runReplacements (l : List Char) : List Char :=
  replacements.foldl applyRep l

/-- `_normalize_chord_symbol` on character lists: strip, pass sentinels
through, otherwise run the replacement table. -/
def normalize_chord_symbol_data (l : List Char) : List Char :=
  let s := stripL l
  if s ∈ sentinels then s else runReplacements s

/-- `_normalize_chord_symbol` from `accompy/accompy.py`. -/
def normalize_chord_symbol (s : String) : String :=
  ⟨normalize_chord_symbol_data s.data⟩

/-- Python `str.split()` (no separator): split on whitespace runs, dropping
empty tokens.  The accumulator holds the current token reversed. -/
def splitWSAux : List Char → List Char → List (List Char)
  | [], acc => if acc.isEmpty then [] else [acc.reverse]
  | c :: cs, acc =>
    if c.isWhitespace then
      if acc.isEmpty then splitWSAux cs [] else acc.reverse :: splitWSAux cs []
    else splitWSAux cs (c :: acc)

/-- Python `s.split('|')`: split on every `'|'`, keeping empty segments. -/
def splitOnBarAux : List Char → List Char → List (List Char)
  | [], acc => [acc.reverse]
  | c :: cs, acc =>
    if c = '|' then acc.reverse :: splitOnBarAux cs []
    else splitOnBarAux cs (c :: acc)

/-- The inner token loop of `_parse_chord_string`: substitute `%`/`x` by the
running `last_chord` (default `"C"`; `last = []` models Python's falsy
`None`/empty), normalize, and thread `last_chord` forward.  Returns the
normalized chords of the bar and the updated `last_chord`. -/
def parseBarTokens : List (List Char) → List Char → List (List Char) × List Char
  | [], last => ([], last)
  | t :: ts, last =>
    let t' := if t = "%".data ∨ t = "x".data then
                (if last.isEmpty then "C".data else last)
              else t
    let c := normalize_chord_symbol_data t'
    let rec_ := parseBarTokens ts c
    (c :: rec_.1, rec_.2)

/-- The outer measure loop of `_parse_chord_string` (bar-delimited branch):
split each part on whitespace, resolve its tokens, drop empty measures, and
carry `last_chord` across measures. -/
def parseBars : List (List Char) → List Char → List (List (List Char))
  | [], _ => []
  | p :: ps, last =>
    let toks := ((splitWSAux p []).map stripL).filter (fun c => !c.isEmpty)
    let res := parseBarTokens toks last
    if res.1.isEmpty then parseBars ps res.2 else res.1 :: parseBars ps res.2

/-- `_parse_chord_string` from `accompy/accompy.py`: strip; if the text
contains `'|'`, split into bar segments and resolve repeat sentinels;
otherwise treat it as space-separated one-chord-per-bar tokens, normalizing
each token in place (the repeat-sentinel substitution runs only in the
bar-delimited branch). -/
def parse_chord_string_data (l : List Char) : List (List (List Char)) :=
  let s := stripL l
  if s.contains '|' then
    let parts := ((splitOnBarAux s []).map stripL).filter (fun p => !p.isEmpty)
    parseBars parts []
  else
    ((splitWSAux s []).filter (fun c => !(stripL c).isEmpty)).map
      (fun c => [normalize_chord_symbol_data c])

/-- `_parse_chord_string` on Lean strings. -/
def parse_chord_string (s : String) : List (List String) :=
  (parse_chord_string_data s.data).map (fun m => m.map String.mk)

/-- The `Score` dataclass: parsed measures of chord symbols plus metadata. -/
structure Score where
  measures : List (List String)
  title : String := "Untitled"
  composer : String := ""
  key : String := "C"
  time_signature : ℕ × ℕ := (4, 4)
deriving DecidableEq, Repr

/-- `Score.from_string`. -/
def Score.from_string (chord_string : String) (title : String := "Untitled")
    (key : String := "C") (ts : ℕ × ℕ := (4, 4)) : Score :=
  { measures := parse_chord_string chord_string, title := title, key := key,
    time_signature := ts }

/-- A Python value appearing inside a sequence handed to `ensure_score`:
a string, a number (`int`/`float`, modelled by `ℚ`), or anything else. -/
inductive PyVal where
  | vstr (s : String)
  | vnum (q : ℚ)
  | vother
deriving DecidableEq

/-- A top-level element of an iterable handed to `ensure_score`: a string,
a `list`/`tuple` of values, or any other object. -/
inductive PyItem where
  | atomS (s : String)
  | seq (xs : List PyVal)
  | other
deriving DecidableEq

/-- The runtime shapes `ensure_score` can receive: an existing `Score`, a
string, a Python `list`, some other iterable (tuple, generator, ...), or a
non-iterable object. -/
inductive ChordsInput where
  | score (sc : Score)
  | text (s : String)
  | pylist (items : List PyItem)
  | pyiter (items : List PyItem)
  | nonIterable

/-- `isinstance(x, str)`. -/
def PyVal.isStr : PyVal → Bool
  | .vstr _ => true
  | _ => false

/-- `isinstance(x, (list, tuple)) and all(isinstance(c, str) for c in x)` —
the per-element test of the measures-list branch. -/
def PyItem.seqAllStr : PyItem → Bool
  | .seq xs => xs.all PyVal.isStr
  | _ => false

/-- `isinstance(x, str)` on a top-level item. -/
def PyItem.isStrItem : PyItem → Bool
  | .atomS _ => true
  | _ => false

/-- `isinstance(x, (list, tuple)) and len(x) == 2 and isinstance(x[0], str)
and isinstance(x[1], (int, float))` — the `(chord, beats)` pair test. -/
def PyItem.isPairSN : PyItem → Bool
  | .seq [.vstr _, .vnum _] => true
  | _ => false

/-- Extract the string of a string value (only used after `isStr`). -/
def PyVal.asStr : PyVal → String
  | .vstr s => s
  | _ => ""

/-- Extract the strings of a measures-list row (only used after `seqAllStr`). -/
def PyItem.seqStrs : PyItem → List String
  | .seq xs => xs.map PyVal.asStr
  | _ => []

/-- Extract a string item (only used after `isStrItem`). -/
def PyItem.atomStr : PyItem → String
  | .atomS s => s
  | _ => ""

/-- Extract a `(chord, beats)` pair (only used after `isPairSN`). -/
def PyItem.pairOf : PyItem → String × ℚ
  | .seq [.vstr s, .vnum q] => (s, q)
  | _ => ("", 0)

/-- The `TypeError` message raised by `ensure_score`. -/
def typeErrMsg : String :=
  "Unsupported chords input. Expected Score, chord string, iReal URL, list of (chord, beats) tuples, iterable of chord symbols, or measures list."

/-- `_score_from_chord_specs`: accumulate `(chord, beats)` pairs into bars of
`beats_per_bar` beats.  Whole-bar multiples become single-chord measures;
fractional remainders accumulate into a growing bar closed once the running
total reaches the bar length minus `1e-9`.  (The Python code would raise on a
zero `beats_per_bar`; callers always pass a positive one and the claims never
exercise that corner, so `ℚ` division is used directly.) -/
def specFold (bpb : ℚ) : List (String × ℚ) → List String → ℚ → List (List String)
  | [], bar, _ => if bar.isEmpty then [] else [bar]
  | (chord, beats) :: rest, bar, acc =>
    let c := normalize_chord_symbol chord
    if c = "" ∨ c = "n" ∨ c = "N.C." ∨ c = "NC" then specFold bpb rest bar acc
    else if beats ≤ 0 then specFold bpb rest bar acc
    else
      let fullBars := (⌊beats / bpb⌋).toNat
      let rem := beats - (fullBars : ℚ) * bpb
      let fullList := List.replicate fullBars [c]
      if rem ≠ 0 then
        let bar2 := bar ++ [c]
        let acc2 := acc + rem
        if bpb - 1 / 1000000000 ≤ acc2 then fullList ++ bar2 :: specFold bpb rest [] 0
        else fullList ++ specFold bpb rest bar2 acc2
      else fullList ++ specFold bpb rest bar acc

/-- `_score_from_chord_specs` from `accompy/accompy.py`. -/
def score_from_chord_specs (specs : List (String × ℚ)) (title : String)
    (key : String) (ts : ℕ × ℕ) : Score :=
  { measures := specFold (ts.1 : ℚ) specs [] 0, title := title, key := key,
    time_signature := ts }

/-- The `isinstance(chords, Iterable)` arm of `ensure_score`: empty iterable
becomes an empty `Score`; all-strings becomes one chord per bar; all
`(chord, beats)` pairs go through `_score_from_chord_specs`; anything else
falls through to the `TypeError`. -/
def ensureIterable (items : List PyItem) (title key : String) (ts : ℕ × ℕ) :
    Except String Score :=
  if items.isEmpty then
    .ok { measures := [], title := title, key := key, time_signature := ts }
  else if items.all PyItem.isStrItem then
    .ok { measures := items.map (fun it => [normalize_chord_symbol it.atomStr]),
          title := title, key := key, time_signature := ts }
  else if items.all PyItem.isPairSN then
    .ok (score_from_chord_specs (items.map PyItem.pairOf) title key ts)
  else .error typeErrMsg

/-- `ensure_score` from `accompy/accompy.py`.  The iReal-URL branch delegates
to an external parser collaborator (`Score.from_ireal_url`), supplied here as
the `parseIreal` argument; all other branches follow the source dispatch. -/
def ensure_score (parseIreal : String → Except String Score)
    (chords : ChordsInput) (title : String) (key : String) (ts : ℕ × ℕ) :
    Except String Score :=
  match chords with
  | .score sc => .ok sc
  | .text s =>
    let st : String := ⟨stripL s.data⟩
    if "irealbook://".data.isPrefixOf st.data || "irealb://".data.isPrefixOf st.data then
      parseIreal st
    else .ok (Score.from_string st title key ts)
  | .pylist items =>
    if !items.isEmpty && items.all PyItem.seqAllStr then
      .ok { measures := items.map (fun it => it.seqStrs.map normalize_chord_symbol),
            title := title, key := key, time_signature := ts }
    else ensureIterable items title key ts
  | .pyiter items => ensureIterable items title key ts
  | .nonIterable => .error typeErrMsg

/-- The `note_map` dictionary of `_note_to_midi`. -/
def noteMap : List (Char × ℤ) :=
  [('C', 0), ('D', 2), ('E', 4), ('F', 5), ('G', 7), ('A', 9), ('B', 11)]

/-- `note_map.get(ch, 0)`. -/
def noteMapVal (c : Char) : ℤ :=
  (noteMap.lookup c).getD 0

/-- `_note_to_midi` from `accompy/accompy.py`: map the (upper-cased) first
character through `note_map` with default 0, apply a trailing `#`/`b`
accidental, and place in the given octave. -/
def note_to_midi (note : List Char) (octave : ℤ) : ℤ :=
  match note with
  | [] => 60
  | c :: rest =>
    let base := noteMapVal c.toUpper
    let base2 := match rest with
      | [] => base
      | a :: _ => if a = '#' then base + 1 else if a = 'b' then base - 1 else base
    base2 + (octave + 1) * 12

/-- `_split_chord_symbol`: root letter (+ optional accidental) and quality. -/
def split_chord_symbol (s : List Char) : List Char × List Char :=
  match s with
  | [] => ("C".data, "".data)
  | [c] => ([c], [])
  | c1 :: c2 :: rest =>
    if c2 = '#' ∨ c2 = 'b' then ([c1, c2], rest) else ([c1], c2 :: rest)

/-- The `intervals` dictionary of `_basic_chord_to_notes`. -/
def chordIntervalTable : List (List Char × List ℤ) :=
  [("".data, [0, 4, 7]),
   ("-".data, [0, 3, 7]),
   ("-7".data, [0, 3, 7, 10]),
   ("7".data, [0, 4, 7, 10]),
   ("^7".data, [0, 4, 7, 11]),
   ("^".data, [0, 4, 7]),
   ("o".data, [0, 3, 6]),
   ("o7".data, [0, 3, 6, 9]),
   ("h7".data, [0, 3, 6, 10]),
   ("sus".data, [0, 5, 7]),
   ("sus2".data, [0, 2, 7]),
   ("+".data, [0, 4, 8]),
   ("9".data, [0, 4, 7, 10, 14]),
   ("-9".data, [0, 3, 7, 10, 14]),
   ("^9".data, [0, 4, 7, 11, 14])]

/-- The keys of the `intervals` dictionary of `_basic_chord_to_notes`. -/
def chordIntervalKeys : List (List Char) :=
  chordIntervalTable.map Prod.fst

/-- `intervals.get(quality, [0, 4, 7])`. -/
def intervalsFor (q : List Char) : List ℤ :=
  (chordIntervalTable.lookup q).getD [0, 4, 7]

/-- `_basic_chord_to_notes` from `accompy/accompy.py`: split the symbol, put
the root in octave 3, and add the quality's interval offsets. -/
def basic_chord_to_notes (s : List Char) : List ℤ :=
  let rq := split_chord_symbol s
  let root_midi := note_to_midi rq.1 3
  (intervalsFor rq.2).map (fun i => root_midi + i)

/-- One value of the dictionary built in `_get_style_patterns`: drum-hit
triples `(beat_offset, drum_note, velocity)` plus bass/piano pattern names. -/
structure StyleEntry where
  drums : List (ℚ × ℕ × ℕ)
  bass : String
  piano : String
deriving DecidableEq, Repr

/-- The `"swing"` entry of `_get_style_patterns` (also its fallback value). -/
def swingStyleEntry : StyleEntry :=
  ⟨[(0, 42, 80), (1, 42, 60), (2, 42, 80), (3, 42, 60)], "walking", "comping"⟩

/-- The `patterns` dictionary literal of `_get_style_patterns`. -/
def stylePatternsTable : List (String × StyleEntry) :=
  [("swing", swingStyleEntry),
   ("bossa", ⟨[(0, 42, 70), (3/2, 42, 50), (3, 42, 70)], "bossa", "bossa"⟩),
   ("rock", ⟨[(0, 36, 100), (1, 38, 90), (2, 36, 100), (3, 38, 90)], "root", "block"⟩),
   ("ballad", ⟨[(0, 42, 50), (2, 42, 50)], "half", "arpeggiate"⟩),
   ("funk", ⟨[(0, 36, 110), (1/2, 38, 80), (1, 36, 90), (3/2, 38, 100),
              (2, 36, 110), (5/2, 38, 80), (3, 36, 90), (7/2, 38, 100)],
             "syncopated", "stabs"⟩),
   ("latin", ⟨[(0, 36, 90), (1/2, 42, 70), (1, 42, 70), (3/2, 38, 80),
               (2, 36, 90), (5/2, 42, 70), (3, 38, 80), (7/2, 42, 70)],
              "montuno", "montuno"⟩),
   ("waltz", ⟨[(0, 36, 100), (1, 42, 60), (2, 42, 60)], "waltz", "waltz"⟩),
   ("blues", ⟨[(0, 42, 80), (1, 42, 60), (2, 42, 80), (3, 42, 60)], "shuffle", "comping"⟩)]

/-- `_get_style_patterns` from `accompy/accompy.py`:
`patterns.get(style, patterns["swing"])`. -/
def get_style_patterns (style : String) : StyleEntry :=
  (stylePatternsTable.lookup style).getD swingStyleEntry

/-- Python `int(q)` on a rational: truncation toward zero. -/
def pyInt (q : ℚ) : ℤ := Int.tdiv q.num q.den

/-- One `midi.addNote(track, channel, pitch, time, duration, volume)` call of
the builtin generator. -/
structure NoteEv where
  track : ℕ
  channel : ℕ
  pitch : ℤ
  time : ℚ
  duration : ℚ
  velocity : ℤ
deriving DecidableEq, Repr

/-- `_add_drum_pattern`: one percussion hit per pattern entry whose beat
offset falls strictly before the chord duration, on channel 9, with velocity
`int(velocity * volume)`. -/
def add_drum_pattern (track : ℕ) (start_beat : ℚ) (duration : ℕ)
    (pattern : List (ℚ × ℕ × ℕ)) (volume : ℚ) : List NoteEv :=
  pattern.filterMap fun h =>
    if h.1 < (duration : ℚ) then
      some ⟨track, 9, (h.2.1 : ℤ), start_beat + h.1, 1/4, pyInt ((h.2.2 : ℚ) * volume)⟩
    else none

/-- `_add_bass_pattern`: bass notes on channel 0 depending on the pattern
name, all at velocity `int(100 * volume)`; `chord_notes` is accepted but
unused, as in the source. -/
def add_bass_pattern (track : ℕ) (start_beat : ℚ) (duration : ℕ) (root : ℤ)
    (chord_notes : List ℤ) (pattern_type : String) (volume : ℚ) : List NoteEv :=
  let velocity := pyInt (100 * volume)
  let bass_root := root % 12 + 36
  if pattern_type = "walking" then
    (([bass_root, bass_root + 4, bass_root + 7, bass_root + 11].take duration).enum).map
      (fun p => ⟨track, 0, p.2, start_beat + (p.1 : ℚ), 9/10, velocity⟩)
  else if pattern_type = "bossa" then
    ⟨track, 0, bass_root, start_beat, 3/2, velocity⟩ ::
      (if 2 < duration then [⟨track, 0, bass_root + 7, start_beat + 2, 3/2, velocity⟩]
       else [])
  else if pattern_type = "root" then
    (List.range duration).map
      (fun i => ⟨track, 0, bass_root, start_beat + (i : ℚ), 9/10, velocity⟩)
  else if pattern_type = "half" then
    [⟨track, 0, bass_root, start_beat, 2, velocity⟩]
  else
    [⟨track, 0, bass_root, start_beat, (duration : ℚ), velocity⟩]

/-- `_add_piano_pattern`: comping voicings on channel 1 (up to four pitches
folded into the octave above middle C), velocity `int(90 * volume)`. -/
def add_piano_pattern (track : ℕ) (start_beat : ℚ) (duration : ℕ)
    (chord_notes : List ℤ) (pattern_type : String) (volume : ℚ) : List NoteEv :=
  let velocity := pyInt (90 * volume)
  let notes := (chord_notes.take 4).map (fun n => n % 12 + 60)
  if pattern_type = "comping" then
    (if 2 ≤ duration then
       notes.map (fun n => ⟨track, 1, n, start_beat + 1, 1/2, velocity⟩)
     else []) ++
    (if 4 ≤ duration then
       notes.map (fun n => ⟨track, 1, n, start_beat + 3, 1/2, velocity⟩)
     else [])
  else if pattern_type = "bossa" then
    notes.map (fun n => ⟨track, 1, n, start_beat, 2/5, velocity⟩) ++
    (if 1 < duration then
       notes.map (fun n =>
         ⟨track, 1, n, start_beat + 3/2, 2/5, pyInt ((velocity : ℚ) * (4/5))⟩)
     else [])
  else if pattern_type = "block" then
    ((List.range (min duration 4)).map (fun i =>
       notes.map (fun n => ⟨track, 1, n, start_beat + (i : ℚ), 9/10, velocity⟩))).flatten
  else if pattern_type = "arpeggiate" then
    notes.enum.map
      (fun p => ⟨track, 1, p.2, start_beat + (p.1 : ℚ) * (1/2), 3/2, velocity⟩)
  else
    notes.map (fun n => ⟨track, 1, n, start_beat, (duration : ℚ) * (9/10), velocity⟩)

/-- The per-instrument event lists accumulated by `_generate_builtin` (the
MIDI object keeps one track per enabled instrument). -/
structure Tracks where
  drums : List NoteEv
  bass : List NoteEv
  piano : List NoteEv
deriving DecidableEq, Repr

/-- Concatenate two event collections track-wise. -/
def Tracks.append (a b : Tracks) : Tracks :=
  ⟨a.drums ++ b.drums, a.bass ++ b.bass, a.piano ++ b.piano⟩

/-- No events. -/
def Tracks.emptyT : Tracks := ⟨[], [], []⟩

/-- `AccompanimentConfig`, restricted to the fields the builtin generator
reads: style, repeat count, the three supported instrument enable flags and
their effective volumes (`config.volumes.get(name, default)`).  The `guitar`
flag only triggers a warning in the source and emits no events. -/
structure AccompanimentConfig where
  style : String := "swing"
  tempo : ℕ := 120
  repeats : ℕ := 2
  drums : Bool := true
  bass : Bool := true
  piano : Bool := true
  vol_drums : ℚ := 4/5
  vol_bass : ℚ := 9/10
  vol_piano : ℚ := 7/10
deriving DecidableEq, Repr

/-- Track index of the drums track (first enabled instrument, in source
order drums, bass, piano). -/
def trackD (_cfg : AccompanimentConfig) : ℕ := 0

/-- Track index of the bass track. -/
def trackB (cfg : AccompanimentConfig) : ℕ := if cfg.drums then 1 else 0

/-- Track index of the piano track. -/
def trackP (cfg : AccompanimentConfig) : ℕ :=
  (if cfg.drums then 1 else 0) + (if cfg.bass then 1 else 0)

/-- The per-chord body of the generation loop of `_generate_builtin`: skip
rest sentinels, resolve the pitch set with the dependency-free fallback
resolver (`_basic_chord_to_notes`; the optional `mingus` resolver is the
external collaborator and is absent here), and emit drum, bass and piano
events for every enabled instrument. -/
def render_chord (cfg : AccompanimentConfig) (chord_start : ℚ)
    (beats_per_chord : ℕ) (sym : String) : Tracks :=
  if sym = "" ∨ sym = "n" ∨ sym = "N.C." ∨ sym = "NC" then Tracks.emptyT
  else
    let pats := get_style_patterns cfg.style
    let notes := basic_chord_to_notes sym.data
    let root := match notes with | [] => 48 | r :: _ => r
    ⟨if cfg.drums then
       add_drum_pattern (trackD cfg) chord_start beats_per_chord pats.drums cfg.vol_drums
     else [],
     if cfg.bass then
       add_bass_pattern (trackB cfg) chord_start beats_per_chord root notes pats.bass cfg.vol_bass
     else [],
     if cfg.piano then
       add_piano_pattern (trackP cfg) chord_start beats_per_chord notes pats.piano cfg.vol_piano
     else []⟩

/-- Fold a list of event collections into one. -/
def joinTracks (l : List Tracks) : Tracks :=
  l.foldr Tracks.append Tracks.emptyT

/-- One measure of the generation loop: `beats_per_chord = beats_per_bar //
len(measure)` raises `ZeroDivisionError` on an empty measure; otherwise each
chord occupies `beats_per_chord` beats starting at its slice. -/
def render_measure (cfg : AccompanimentConfig) (bpb : ℕ) (current_beat : ℚ)
    (measure : List String) : Except String Tracks :=
  if measure.length = 0 then
    .error "ZeroDivisionError: integer division or modulo by zero"
  else
    let bpc := bpb / measure.length
    .ok (joinTracks (measure.enum.map
      (fun p => render_chord cfg (current_beat + (p.1 * bpc : ℕ)) bpc p.2)))

/-- One pass over all measures, advancing the beat cursor by `beats_per_bar`
after each measure. -/
def render_measures (cfg : AccompanimentConfig) (bpb : ℕ) :
    ℚ → List (List String) → Except String Tracks
  | _, [] => .ok Tracks.emptyT
  | current, m :: rest =>
    match render_measure cfg bpb current m with
    | .error e => .error e
    | .ok tr =>
      match render_measures cfg bpb (current + (bpb : ℚ)) rest with
      | .error e => .error e
      | .ok tr2 => .ok (tr.append tr2)

/-- The `for repeat in range(config.repeats)` loop of `_generate_builtin`:
the beat cursor keeps advancing across passes. -/
def render_repeats (cfg : AccompanimentConfig) (measures : List (List String))
    (bpb : ℕ) : ℕ → ℚ → Except String Tracks
  | 0, _ => .ok Tracks.emptyT
  | n + 1, current =>
    match render_measures cfg bpb current measures with
    | .error e => .error e
    | .ok tr =>
      match render_repeats cfg measures bpb n (current + (measures.length : ℚ) * (bpb : ℚ)) with
      | .error e => .error e
      | .ok rest => .ok (tr.append rest)

/-- `_generate_builtin` from `accompy/accompy.py`, reduced to the note events
it feeds to the MIDI writer (tempo/program-change meta events and the file
write are the serializer boundary). -/
def generate_builtin (score : Score) (cfg : AccompanimentConfig) :
    Except String Tracks :=
  render_repeats cfg score.measures score.time_signature.1 cfg.repeats 0

/-- `DrumHit` from `accompy/patterns.py`. -/
structure DrumHit where
  beat : ℚ
  drum : ℕ
  velocity : ℕ
deriving DecidableEq, Repr

/-- `NoteEvent` (melodic template entry) from `accompy/patterns.py`. -/
structure PNoteEvent where
  beat : ℚ
  pitch_offset : ℤ
  duration : ℚ
  velocity : ℕ
deriving DecidableEq, Repr

/-- `DrumPattern` from `accompy/patterns.py`. -/
structure DrumPattern where
  name : String
  beats_per_bar : ℕ
  hits : List DrumHit
deriving DecidableEq, Repr

/-- `BassPattern` from `accompy/patterns.py`. -/
structure BassPattern where
  name : String
  notes : List PNoteEvent
deriving DecidableEq, Repr

/-- `CompingPattern` from `accompy/patterns.py`: `(beat, duration, velocity)`
triples. -/
structure CompingPattern where
  name : String
  hits : List (ℚ × ℚ × ℕ)
deriving DecidableEq, Repr

/-- General-MIDI drum numbers used by the catalog. -/
def KICK : ℕ := 36
def SNARE : ℕ := 38
def SIDE_STICK : ℕ := 37
def CLOSED_HIHAT : ℕ := 42
def OPEN_HIHAT : ℕ := 46
def PEDAL_HIHAT : ℕ := 44
def RIDE : ℕ := 51
def COWBELL : ℕ := 56
def CLAVES : ℕ := 75

def SWING_DRUMS_BASIC : DrumPattern :=
  ⟨"swing_basic", 4,
   [⟨0, RIDE, 90⟩, ⟨1, RIDE, 70⟩, ⟨2, RIDE, 85⟩, ⟨3, RIDE, 70⟩,
    ⟨1, PEDAL_HIHAT, 80⟩, ⟨3, PEDAL_HIHAT, 80⟩]⟩

def SWING_DRUMS_BRUSHES : DrumPattern :=
  ⟨"swing_brushes", 4,
   [⟨0, SIDE_STICK, 60⟩, ⟨67/100, CLOSED_HIHAT, 40⟩, ⟨1, SIDE_STICK, 50⟩,
    ⟨167/100, CLOSED_HIHAT, 40⟩, ⟨2, SIDE_STICK, 60⟩, ⟨267/100, CLOSED_HIHAT, 40⟩,
    ⟨3, SIDE_STICK, 50⟩, ⟨367/100, CLOSED_HIHAT, 40⟩]⟩

def SWING_BASS_WALKING : BassPattern :=
  ⟨"walking",
   [⟨0, 0, 9/10, 100⟩, ⟨1, 4, 9/10, 90⟩, ⟨2, 7, 9/10, 95⟩, ⟨3, 11, 9/10, 85⟩]⟩

def SWING_COMP : CompingPattern :=
  ⟨"swing_comp", [(3/2, 2/5, 75), (7/2, 2/5, 80)]⟩

def BOSSA_DRUMS : DrumPattern :=
  ⟨"bossa", 4,
   [⟨0, SIDE_STICK, 70⟩, ⟨2, SIDE_STICK, 65⟩,
    ⟨0, CLOSED_HIHAT, 60⟩, ⟨1/2, CLOSED_HIHAT, 40⟩, ⟨1, CLOSED_HIHAT, 50⟩,
    ⟨3/2, CLOSED_HIHAT, 40⟩, ⟨2, CLOSED_HIHAT, 60⟩, ⟨5/2, CLOSED_HIHAT, 40⟩,
    ⟨3, CLOSED_HIHAT, 50⟩, ⟨7/2, CLOSED_HIHAT, 40⟩,
    ⟨0, KICK, 80⟩, ⟨3/2, KICK, 70⟩, ⟨3, KICK, 75⟩]⟩

def BOSSA_BASS : BassPattern :=
  ⟨"bossa", [⟨0, 0, 13/10, 90⟩, ⟨3/2, 7, 4/5, 75⟩, ⟨5/2, 0, 13/10, 85⟩]⟩

def BOSSA_COMP : CompingPattern :=
  ⟨"bossa_comp", [(0, 3/10, 70), (3/2, 3/10, 65), (5/2, 3/10, 70), (7/2, 3/10, 60)]⟩

def ROCK_DRUMS_BASIC : DrumPattern :=
  ⟨"rock_basic", 4,
   [⟨0, KICK, 110⟩, ⟨2, KICK, 105⟩, ⟨1, SNARE, 100⟩, ⟨3, SNARE, 100⟩,
    ⟨0, CLOSED_HIHAT, 80⟩, ⟨1/2, CLOSED_HIHAT, 60⟩, ⟨1, CLOSED_HIHAT, 80⟩,
    ⟨3/2, CLOSED_HIHAT, 60⟩, ⟨2, CLOSED_HIHAT, 80⟩, ⟨5/2, CLOSED_HIHAT, 60⟩,
    ⟨3, CLOSED_HIHAT, 80⟩, ⟨7/2, CLOSED_HIHAT, 60⟩]⟩

def ROCK_DRUMS_HEAVY : DrumPattern :=
  ⟨"rock_heavy", 4,
   [⟨0, KICK, 120⟩, ⟨1/2, KICK, 90⟩, ⟨1, SNARE, 110⟩, ⟨2, KICK, 115⟩,
    ⟨11/4, KICK, 85⟩, ⟨3, SNARE, 110⟩, ⟨7/2, CLOSED_HIHAT, 70⟩]⟩

def ROCK_BASS : BassPattern :=
  ⟨"rock",
   [⟨0, 0, 9/10, 100⟩, ⟨1, 0, 9/10, 90⟩, ⟨2, 0, 9/10, 100⟩, ⟨3, 0, 9/10, 90⟩]⟩

def ROCK_BASS_DRIVING : BassPattern :=
  ⟨"rock_driving",
   [⟨0, 0, 9/20, 100⟩, ⟨1/2, 0, 9/20, 80⟩, ⟨1, 0, 9/20, 95⟩, ⟨3/2, 0, 9/20, 80⟩,
    ⟨2, 0, 9/20, 100⟩, ⟨5/2, 0, 9/20, 80⟩, ⟨3, 0, 9/20, 95⟩, ⟨7/2, 0, 9/20, 80⟩]⟩

def FUNK_DRUMS : DrumPattern :=
  ⟨"funk", 4,
   [⟨0, KICK, 110⟩, ⟨3/4, KICK, 85⟩, ⟨3/2, KICK, 90⟩, ⟨5/2, KICK, 100⟩,
    ⟨13/4, KICK, 80⟩,
    ⟨1/2, SNARE, 40⟩, ⟨1, SNARE, 105⟩, ⟨9/4, SNARE, 35⟩, ⟨3, SNARE, 105⟩,
    ⟨15/4, SNARE, 45⟩,
    ⟨0, CLOSED_HIHAT, 75⟩, ⟨1/4, CLOSED_HIHAT, 50⟩, ⟨1/2, CLOSED_HIHAT, 65⟩,
    ⟨3/4, CLOSED_HIHAT, 50⟩, ⟨1, OPEN_HIHAT, 80⟩, ⟨5/4, CLOSED_HIHAT, 50⟩,
    ⟨3/2, CLOSED_HIHAT, 65⟩, ⟨7/4, CLOSED_HIHAT, 50⟩, ⟨2, CLOSED_HIHAT, 75⟩,
    ⟨9/4, CLOSED_HIHAT, 50⟩, ⟨5/2, CLOSED_HIHAT, 65⟩, ⟨11/4, CLOSED_HIHAT, 50⟩,
    ⟨3, OPEN_HIHAT, 80⟩, ⟨13/4, CLOSED_HIHAT, 50⟩, ⟨7/2, CLOSED_HIHAT, 65⟩,
    ⟨15/4, CLOSED_HIHAT, 50⟩]⟩

def FUNK_BASS : BassPattern :=
  ⟨"funk",
   [⟨0, 0, 2/5, 110⟩, ⟨3/4, 0, 1/5, 80⟩, ⟨5/4, 7, 3/10, 90⟩, ⟨7/4, 0, 1/5, 75⟩,
    ⟨5/2, 0, 2/5, 100⟩, ⟨3, 5, 3/10, 85⟩, ⟨7/2, 7, 3/10, 80⟩]⟩

def BALLAD_DRUMS : DrumPattern :=
  ⟨"ballad", 4,
   [⟨0, KICK, 70⟩, ⟨2, SIDE_STICK, 60⟩, ⟨0, CLOSED_HIHAT, 50⟩,
    ⟨1, CLOSED_HIHAT, 40⟩, ⟨2, CLOSED_HIHAT, 50⟩, ⟨3, CLOSED_HIHAT, 40⟩]⟩

def BALLAD_BASS : BassPattern :=
  ⟨"ballad", [⟨0, 0, 2, 80⟩, ⟨2, 7, 2, 70⟩]⟩

def BALLAD_COMP : CompingPattern :=
  ⟨"ballad_arp",
   [(0, 4/5, 60), (1/2, 4/5, 55), (1, 4/5, 50), (3/2, 4/5, 55),
    (2, 4/5, 60), (5/2, 4/5, 55), (3, 4/5, 50), (7/2, 4/5, 55)]⟩

def LATIN_DRUMS : DrumPattern :=
  ⟨"latin", 4,
   [⟨0, CLAVES, 90⟩, ⟨3/4, CLAVES, 85⟩, ⟨3/2, CLAVES, 80⟩, ⟨5/2, CLAVES, 90⟩,
    ⟨7/2, CLAVES, 85⟩,
    ⟨0, KICK, 90⟩, ⟨5/2, KICK, 85⟩,
    ⟨0, COWBELL, 70⟩, ⟨1/2, COWBELL, 55⟩, ⟨1, COWBELL, 65⟩, ⟨3/2, COWBELL, 55⟩,
    ⟨2, COWBELL, 70⟩, ⟨5/2, COWBELL, 55⟩, ⟨3, COWBELL, 65⟩, ⟨7/2, COWBELL, 55⟩]⟩

def LATIN_BASS : BassPattern :=
  ⟨"montuno",
   [⟨0, 0, 2/5, 95⟩, ⟨1/2, 7, 2/5, 80⟩, ⟨3/2, 0, 2/5, 90⟩, ⟨2, 7, 2/5, 85⟩,
    ⟨5/2, 0, 2/5, 90⟩, ⟨7/2, 5, 2/5, 80⟩]⟩

def WALTZ_DRUMS : DrumPattern :=
  ⟨"waltz", 3, [⟨0, KICK, 90⟩, ⟨1, CLOSED_HIHAT, 60⟩, ⟨2, CLOSED_HIHAT, 60⟩]⟩

def WALTZ_BASS : BassPattern :=
  ⟨"waltz", [⟨0, 0, 9/10, 95⟩, ⟨1, 4, 9/10, 75⟩, ⟨2, 7, 9/10, 75⟩]⟩

def BLUES_DRUMS : DrumPattern :=
  ⟨"blues_shuffle", 4,
   [⟨0, KICK, 95⟩, ⟨0, CLOSED_HIHAT, 80⟩, ⟨67/100, CLOSED_HIHAT, 60⟩,
    ⟨1, CLOSED_HIHAT, 75⟩, ⟨1, SNARE, 90⟩, ⟨167/100, CLOSED_HIHAT, 60⟩,
    ⟨2, KICK, 90⟩, ⟨2, CLOSED_HIHAT, 80⟩, ⟨267/100, CLOSED_HIHAT, 60⟩,
    ⟨3, CLOSED_HIHAT, 75⟩, ⟨3, SNARE, 90⟩, ⟨367/100, CLOSED_HIHAT, 60⟩]⟩

def BLUES_BASS : BassPattern :=
  ⟨"blues_shuffle",
   [⟨0, 0, 3/5, 95⟩, ⟨67/100, 0, 3/10, 80⟩, ⟨1, 7, 3/5, 90⟩,
    ⟨167/100, 7, 3/10, 75⟩, ⟨2, 0, 3/5, 95⟩, ⟨267/100, 0, 3/10, 80⟩,
    ⟨3, 7, 3/5, 90⟩, ⟨367/100, 9, 3/10, 75⟩]⟩

/-- The `DRUM_PATTERNS` dictionary of `accompy/patterns.py`. -/
def DRUM_PATTERNS : List (String × List DrumPattern) :=
  [("swing", [SWING_DRUMS_BASIC, SWING_DRUMS_BRUSHES]),
   ("bossa", [BOSSA_DRUMS]),
   ("rock", [ROCK_DRUMS_BASIC, ROCK_DRUMS_HEAVY]),
   ("funk", [FUNK_DRUMS]),
   ("ballad", [BALLAD_DRUMS]),
   ("latin", [LATIN_DRUMS]),
   ("waltz", [WALTZ_DRUMS]),
   ("blues", [BLUES_DRUMS])]

/-- The `BASS_PATTERNS` dictionary of `accompy/patterns.py`. -/
def BASS_PATTERNS : List (String × List BassPattern) :=
  [("swing", [SWING_BASS_WALKING]),
   ("bossa", [BOSSA_BASS]),
   ("rock", [ROCK_BASS, ROCK_BASS_DRIVING]),
   ("funk", [FUNK_BASS]),
   ("ballad", [BALLAD_BASS]),
   ("latin", [LATIN_BASS]),
   ("waltz", [WALTZ_BASS]),
   ("blues", [BLUES_BASS])]

/-- The `COMP_PATTERNS` dictionary of `accompy/patterns.py`. -/
def COMP_PATTERNS : List (String × List CompingPattern) :=
  [("swing", [SWING_COMP]),
   ("bossa", [BOSSA_COMP]),
   ("rock", []),
   ("funk", []),
   ("ballad", [BALLAD_COMP]),
   ("latin", []),
   ("waltz", []),
   ("blues", [])]

/-- The result shape of `get_patterns`: the dict with `drums`, `bass`, `comp`
keys. -/
structure PatternsFor where
  drums : List DrumPattern
  bass : List BassPattern
  comp : List CompingPattern
deriving DecidableEq, Repr

/-- `get_patterns` from `accompy/patterns.py`: each catalog is consulted with
`.get(style, CATALOG["swing"])`. -/
def get_patterns (style : String) : PatternsFor :=
  ⟨(DRUM_PATTERNS.lookup style).getD [SWING_DRUMS_BASIC, SWING_DRUMS_BRUSHES],
   (BASS_PATTERNS.lookup style).getD [SWING_BASS_WALKING],
   (COMP_PATTERNS.lookup style).getD [SWING_COMP]⟩

/-- The 21 spellable roots: A..G, optionally followed by `#` or `b`. -/
def rootStrs : List (List Char) :=
  ["A".data, "B".data, "C".data, "D".data, "E".data, "F".data, "G".data,
   "A#".data, "B#".data, "C#".data, "D#".data, "E#".data, "F#".data, "G#".data,
   "Ab".data, "Bb".data, "Cb".data, "Db".data, "Eb".data, "Fb".data, "Gb".data]

/-- The fixed style-name set of the pattern catalogs. -/
def styleNames : List String :=
  ["swing", "bossa", "rock", "ballad", "funk", "latin", "waltz", "blues"]

/-- The recognized note letters of the `note_map` of `_note_to_midi`. -/
def noteLetters : List Char := ['A', 'B', 'C', 'D', 'E', 'F', 'G']

/-- A character list with no whitespace at either end (the shape of
`str.strip()` output). -/
def noWSEnds (l : List Char) : Prop :=
  (∀ c ∈ l.head?, ¬ c.isWhitespace) ∧ (∀ c ∈ l.getLast?, ¬ c.isWhitespace)

/-- The replacement values of the non-identity rows of `replacements`: once a
suffix rewrite has fired, the result ends with one of these. -/
def newSuffixes : List (List Char) :=
  ["^7".data, "^9".data, "^".data, "-7".data, "-9".data, "-".data,
   "o7".data, "o".data, "h7".data, "h".data, "sus".data]

/-! ## Generic helper lemmas -/

instance {ε α : Type} [DecidableEq ε] [DecidableEq α] : DecidableEq (Except ε α) :=
  fun a b =>
    match a, b with
    | .ok x, .ok y =>
      if h : x = y then isTrue (by rw [h]) else isFalse (by intro e; cases e; exact h rfl)
    | .error x, .error y =>
      if h : x = y then isTrue (by rw [h]) else isFalse (by intro e; cases e; exact h rfl)
    | .ok _, .error _ => isFalse (by intro e; cases e)
    | .error _, .ok _ => isFalse (by intro e; cases e)

theorem lookup_getD_mem {α β : Type} [BEq α] (t : List (α × β)) (k : α) (d : β) :
    (t.lookup k).getD d ∈ d :: t.map Prod.snd := by
  induction t with
  | nil => simp [List.lookup]
  | cons p rest ih =>
    obtain ⟨a, b⟩ := p
    cases hk : k == a
    · rcases List.mem_cons.mp ih with h | h
      · exact List.mem_cons.mpr (Or.inl (by simpa [List.lookup, hk] using h))
      · simp only [List.lookup, hk]
        exact List.mem_cons.mpr (Or.inr (List.mem_cons.mpr (Or.inr h)))
    · simp [List.lookup, hk]

theorem lookup_eq_none_of_not_mem {α β : Type} [BEq α] [LawfulBEq α]
    (t : List (α × β)) (k : α) (h : k ∉ t.map Prod.fst) : t.lookup k = none := by
  induction t with
  | nil => rfl
  | cons p rest ih =>
    obtain ⟨a, b⟩ := p
    simp only [List.map_cons, List.mem_cons] at h
    push_neg at h
    simp [List.lookup, beq_eq_false_iff_ne.mpr h.1, ih h.2]

/-! ## Pitch-resolver lemmas -/

theorem intervalsFor_length_ge (q : List Char) : 3 ≤ (intervalsFor q).length := by
  have hm := lookup_getD_mem chordIntervalTable q [0, 4, 7]
  have hv : ∀ v ∈ ([0, 4, 7] : List ℤ) :: chordIntervalTable.map Prod.snd,
      3 ≤ v.length := by decide
  exact hv _ hm

theorem intervalsFor_of_not_mem (q : List Char) (h : q ∉ chordIntervalKeys) :
    intervalsFor q = [0, 4, 7] := by
  unfold intervalsFor
  rw [lookup_eq_none_of_not_mem _ _ h]
  rfl

/-! ## Claim C1 -/

/-- C1: the spec claims the suffix table is applied longest/most-specific
pattern first, so `R+"dim"` normalizes to `R+"o"` and `R+"dim7"` to `R+"o7"`
(the function's own docstring promises `Cdim -> Co`).  The code instead
checks the `'m'` rule before `'dim'`/`'dim7'`, so for every root R in {A..G}
optionally followed by `#`/`b`, `R+"dim"` normalizes to the corrupted
`R+"di-"` and `R+"dim7"` to `R+"di-7"` — never to `R+"o"`/`R+"o7"`. -/
theorem normalize_dim_corrupted_for_all_roots : ∀ R ∈ rootStrs,
    normalize_chord_symbol_data (R ++ "dim".data) = R ++ "di-".data ∧
    normalize_chord_symbol_data (R ++ "dim7".data) = R ++ "di-7".data ∧
    normalize_chord_symbol_data (R ++ "dim".data) ≠ R ++ "o".data ∧
    normalize_chord_symbol_data (R ++ "dim7".data) ≠ R ++ "o7".data := by
  decide

/-- Witness for C1 at the concrete root `"C"`. -/
theorem normalize_dim_corrupted_witness :
    "C".data ∈ rootStrs ∧
    (normalize_chord_symbol_data ("C".data ++ "dim".data) = "C".data ++ "di-".data ∧
     normalize_chord_symbol_data ("C".data ++ "dim7".data) = "C".data ++ "di-7".data ∧
     normalize_chord_symbol_data ("C".data ++ "dim".data) ≠ "C".data ++ "o".data ∧
     normalize_chord_symbol_data ("C".data ++ "dim7".data) ≠ "C".data ++ "o7".data) :=
  ⟨by decide, normalize_dim_corrupted_for_all_roots "C".data (by decide)⟩

/-! ## Claim C5 -/

/-- C5: coercing an input of unsupported shape raises the `TypeError`
synchronously — a non-iterable object, or any non-empty list/iterable whose
items fit none of the supported shapes (measures list, chord symbols,
`(chord, beats)` pairs) — and is never silently coerced to an empty Score. -/
theorem ensure_score_unsupported_raises (p : String → Except String Score)
    (title key : String) (ts : ℕ × ℕ) (items : List PyItem)
    (h0 : items.isEmpty = false)
    (h1 : items.all PyItem.seqAllStr = false)
    (h2 : items.all PyItem.isStrItem = false)
    (h3 : items.all PyItem.isPairSN = false) :
    ensure_score p (.pylist items) title key ts = .error typeErrMsg ∧
    ensure_score p (.pyiter items) title key ts = .error typeErrMsg ∧
    ensure_score p .nonIterable title key ts = .error typeErrMsg := by
  refine ⟨?_, ?_, rfl⟩ <;> simp [ensure_score, ensureIterable, h0, h1, h2, h3]

/-- Witness for C5: a 1-element list holding an unsupported object. -/
theorem ensure_score_unsupported_raises_witness :
    ensure_score (fun _ => .error "") (.pylist [PyItem.other]) "Untitled" "C" (4, 4) =
      .error typeErrMsg ∧
    ensure_score (fun _ => .error "") (.pyiter [PyItem.other]) "Untitled" "C" (4, 4) =
      .error typeErrMsg ∧
    ensure_score (fun _ => .error "") .nonIterable "Untitled" "C" (4, 4) =
      .error typeErrMsg :=
  ensure_score_unsupported_raises (fun _ => .error "") "Untitled" "C" (4, 4)
    [PyItem.other] (by decide) (by decide) (by decide) (by decide)

/-! ## Claim C6 -/

/-- C6: the fixed-table pitch resolver is total (every symbol yields at least
3 pitches); for every spellable root R, `R ++ "-7"` resolves to relative
offsets `[0, 3, 7, 10]` from the root pitch; and any symbol whose quality
suffix is not an interval-table key falls back to the major-triad offsets
`[0, 4, 7]`. -/
theorem basic_chord_resolver_total_and_fixed :
    (∀ s : List Char, 3 ≤ (basic_chord_to_notes s).length) ∧
    (∀ R ∈ rootStrs,
      basic_chord_to_notes (R ++ "-7".data) =
        [note_to_midi R 3, note_to_midi R 3 + 3, note_to_midi R 3 + 7,
         note_to_midi R 3 + 10]) ∧
    (∀ s : List Char, (split_chord_symbol s).2 ∉ chordIntervalKeys →
      basic_chord_to_notes s =
        [note_to_midi (split_chord_symbol s).1 3,
         note_to_midi (split_chord_symbol s).1 3 + 4,
         note_to_midi (split_chord_symbol s).1 3 + 7]) := by
  refine ⟨?_, by decide, ?_⟩
  · intro s
    unfold basic_chord_to_notes
    simpa using intervalsFor_length_ge (split_chord_symbol s).2
  · intro s h
    unfold basic_chord_to_notes
    simp only [intervalsFor_of_not_mem _ h]
    simp

/-- Witness for C6 at concrete symbols `"Q"`, `"F#-7"` and `"Cxyz"`. -/
theorem basic_chord_resolver_total_and_fixed_witness :
    3 ≤ (basic_chord_to_notes "Q".data).length ∧
    ("F#".data ∈ rootStrs ∧
      basic_chord_to_notes ("F#".data ++ "-7".data) =
        [note_to_midi "F#".data 3, note_to_midi "F#".data 3 + 3,
         note_to_midi "F#".data 3 + 7, note_to_midi "F#".data 3 + 10]) ∧
    ((split_chord_symbol "Cxyz".data).2 ∉ chordIntervalKeys ∧
      basic_chord_to_notes "Cxyz".data =
        [note_to_midi (split_chord_symbol "Cxyz".data).1 3,
         note_to_midi (split_chord_symbol "Cxyz".data).1 3 + 4,
         note_to_midi (split_chord_symbol "Cxyz".data).1 3 + 7]) :=
  ⟨basic_chord_resolver_total_and_fixed.1 "Q".data,
   ⟨by decide, basic_chord_resolver_total_and_fixed.2.1 "F#".data (by decide)⟩,
   ⟨by decide, basic_chord_resolver_total_and_fixed.2.2 "Cxyz".data (by decide)⟩⟩

/-! ## Claim C7 -/

/-- C7: for every style name outside the fixed set, both pattern lookups
(`get_patterns` in `patterns.py` and `_get_style_patterns` in `accompy.py`)
fall back to the `"swing"` entry exactly, and never raise. -/
theorem get_patterns_unknown_style_falls_back_to_swing (style : String)
    (h : style ∉ styleNames) :
    get_patterns style = get_patterns "swing" ∧
    get_style_patterns style = get_style_patterns "swing" := by
  have s1 : DRUM_PATTERNS.map Prod.fst ⊆ styleNames := by decide
  have s2 : BASS_PATTERNS.map Prod.fst ⊆ styleNames := by decide
  have s3 : COMP_PATTERNS.map Prod.fst ⊆ styleNames := by decide
  have s4 : stylePatternsTable.map Prod.fst ⊆ styleNames := by decide
  have L1 := lookup_eq_none_of_not_mem DRUM_PATTERNS style (fun hm => h (s1 hm))
  have L2 := lookup_eq_none_of_not_mem BASS_PATTERNS style (fun hm => h (s2 hm))
  have L3 := lookup_eq_none_of_not_mem COMP_PATTERNS style (fun hm => h (s3 hm))
  have L4 := lookup_eq_none_of_not_mem stylePatternsTable style (fun hm => h (s4 hm))
  constructor
  · unfold get_patterns
    rw [L1, L2, L3]
    rfl
  · unfold get_style_patterns
    rw [L4]
    rfl

/-- Witness for C7 at the concrete style name `"unknown"`. -/
theorem get_patterns_unknown_style_falls_back_to_swing_witness :
    get_patterns "unknown" = get_patterns "swing" ∧
    get_style_patterns "unknown" = get_style_patterns "swing" :=
  get_patterns_unknown_style_falls_back_to_swing "unknown" (by decide)

/-! ## Claim C10 -/

/-- C10: if the first character of a symbol is not a recognized note letter
(up-cased, outside A..G), `_note_to_midi` maps it to pitch class 0 (C), so
the resolved pitch set equals that of the corresponding C-rooted symbol. -/
theorem basic_chord_notes_garbage_root_as_C (c : Char) (rest : List Char)
    (h : c.toUpper ∉ noteLetters) :
    basic_chord_to_notes (c :: rest) = basic_chord_to_notes ('C' :: rest) := by
  have sub : noteMap.map Prod.fst ⊆ noteLetters := by decide
  have hz : noteMapVal c.toUpper = 0 := by
    unfold noteMapVal
    rw [lookup_eq_none_of_not_mem _ _ (fun hm => h (sub hm))]
    rfl
  have hC : noteMapVal ('C'.toUpper) = 0 := by decide
  have hC2 : noteMapVal 'C' = 0 := by decide
  cases rest with
  | nil => simp [basic_chord_to_notes, split_chord_symbol, note_to_midi, hz, hC, hC2]
  | cons a rest2 =>
    by_cases h1 : a = '#' ∨ a = 'b'
    · rcases h1 with rfl | rfl <;>
        simp [basic_chord_to_notes, split_chord_symbol, note_to_midi, hz, hC, hC2]
    · simp [basic_chord_to_notes, split_chord_symbol, h1, note_to_midi, hz, hC, hC2]

/-- Witness for C10 at the concrete garbage-rooted symbol `"?m7"`. -/
theorem basic_chord_notes_garbage_root_as_C_witness :
    '?'.toUpper ∉ noteLetters ∧
    basic_chord_to_notes ('?' :: "m7".data) = basic_chord_to_notes ('C' :: "m7".data) :=
  ⟨by decide, basic_chord_notes_garbage_root_as_C '?' "m7".data (by decide)⟩

/-! ## Arranger lemmas: per-pass event counts are start-independent -/

theorem length_filterMap_ite {α β : Type} (f : α → β) (P : α → Prop) [DecidablePred P]
    (l : List α) :
    (l.filterMap (fun a => if P a then some (f a) else none)).length =
      (l.filter (fun a => decide (P a))).length := by
  induction l with
  | nil => rfl
  | cons a t ih =>
    by_cases h : P a <;> simp [List.filterMap_cons, List.filter_cons, h, ih]

theorem add_drum_pattern_length (t : ℕ) (s : ℚ) (d : ℕ) (p : List (ℚ × ℕ × ℕ)) (v : ℚ) :
    (add_drum_pattern t s d p v).length =
      (p.filter (fun h => decide (h.1 < (d : ℚ)))).length := by
  unfold add_drum_pattern
  exact length_filterMap_ite _ _ p

theorem add_bass_pattern_length_indep (t1 t2 : ℕ) (s1 s2 : ℚ) (d : ℕ) (r : ℤ)
    (cn : List ℤ) (pt : String) (v1 v2 : ℚ) :
    (add_bass_pattern t1 s1 d r cn pt v1).length =
      (add_bass_pattern t2 s2 d r cn pt v2).length := by
  unfold add_bass_pattern
  by_cases h1 : pt = "walking"
  · simp [h1]
  · by_cases h2 : pt = "bossa"
    · by_cases hd : 2 < d <;> simp [h1, h2, hd]
    · by_cases h3 : pt = "root"
      · simp [h1, h2, h3]
      · by_cases h4 : pt = "half" <;> simp [h1, h2, h3, h4]

theorem add_piano_pattern_length_indep (t1 t2 : ℕ) (s1 s2 : ℚ) (d : ℕ)
    (cn : List ℤ) (pt : String) (v1 v2 : ℚ) :
    (add_piano_pattern t1 s1 d cn pt v1).length =
      (add_piano_pattern t2 s2 d cn pt v2).length := by
  unfold add_piano_pattern
  by_cases h1 : pt = "comping"
  · by_cases ha : 2 ≤ d <;> by_cases hb : 4 ≤ d <;> simp [h1, ha, hb]
  · by_cases h2 : pt = "bossa"
    · by_cases hc : 1 < d <;> simp [h1, h2, hc]
    · by_cases h3 : pt = "block"
      · simp [h1, h2, h3, Function.comp_def, List.length_take]
      · by_cases h4 : pt = "arpeggiate" <;> simp [h1, h2, h3, h4]

theorem render_chord_length_indep (cfg : AccompanimentConfig) (s1 s2 : ℚ)
    (bpc : ℕ) (sym : String) :
    (render_chord cfg s1 bpc sym).drums.length =
        (render_chord cfg s2 bpc sym).drums.length ∧
      (render_chord cfg s1 bpc sym).bass.length =
        (render_chord cfg s2 bpc sym).bass.length ∧
      (render_chord cfg s1 bpc sym).piano.length =
        (render_chord cfg s2 bpc sym).piano.length := by
  unfold render_chord
  by_cases hs : sym = "" ∨ sym = "n" ∨ sym = "N.C." ∨ sym = "NC"
  · simp [hs]
  · simp only [if_neg hs]
    refine ⟨?_, ?_, ?_⟩
    · by_cases hd : cfg.drums <;> simp [hd, add_drum_pattern_length]
    · by_cases hb : cfg.bass <;> simp [hb]
      exact add_bass_pattern_length_indep _ _ s1 s2 _ _ _ _ _ _
    · by_cases hp : cfg.piano <;> simp [hp]
      exact add_piano_pattern_length_indep _ _ s1 s2 _ _ _ _ _

theorem joinTracks_proj (l : List Tracks) :
    (joinTracks l).drums = (l.map Tracks.drums).flatten ∧
    (joinTracks l).bass = (l.map Tracks.bass).flatten ∧
    (joinTracks l).piano = (l.map Tracks.piano).flatten := by
  induction l with
  | nil => exact ⟨rfl, rfl, rfl⟩
  | cons t r ih =>
    simp [joinTracks, Tracks.append, List.foldr_cons] at ih ⊢
    exact ⟨by rw [ih.1], by rw [ih.2.1], by rw [ih.2.2]⟩

theorem render_measure_eq (cfg : AccompanimentConfig) (bpb : ℕ) (s : ℚ)
    (m : List String) (h : ¬ m.length = 0) :
    render_measure cfg bpb s m = .ok (joinTracks (m.enum.map
      (fun p => render_chord cfg (s + ((p.1 * (bpb / m.length) : ℕ) : ℚ))
        (bpb / m.length) p.2))) := by
  unfold render_measure
  rw [if_neg h]

theorem render_measure_pair (cfg : AccompanimentConfig) (bpb : ℕ) (s1 s2 : ℚ)
    (m : List String) (tr1 tr2 : Tracks)
    (h1 : render_measure cfg bpb s1 m = .ok tr1)
    (h2 : render_measure cfg bpb s2 m = .ok tr2) :
    tr1.drums.length = tr2.drums.length ∧ tr1.bass.length = tr2.bass.length ∧
      tr1.piano.length = tr2.piano.length := by
  by_cases h : m.length = 0
  · rw [show render_measure cfg bpb s1 m = .error
        "ZeroDivisionError: integer division or modulo by zero" from by
      unfold render_measure; rw [if_pos h]] at h1
    cases h1
  · rw [render_measure_eq cfg bpb s1 m h] at h1
    rw [render_measure_eq cfg bpb s2 m h] at h2
    injection h1 with e1
    injection h2 with e2
    subst e1; subst e2
    refine ⟨?_, ?_, ?_⟩
    · rw [(joinTracks_proj _).1, (joinTracks_proj _).1, List.length_flatten,
        List.length_flatten]
      simp only [List.map_map]
      refine congrArg List.sum (List.map_congr_left ?_)
      intro a _
      simp only [Function.comp_apply]
      exact (render_chord_length_indep cfg _ _ _ _).1
    · rw [(joinTracks_proj _).2.1, (joinTracks_proj _).2.1, List.length_flatten,
        List.length_flatten]
      simp only [List.map_map]
      refine congrArg List.sum (List.map_congr_left ?_)
      intro a _
      simp only [Function.comp_apply]
      exact (render_chord_length_indep cfg _ _ _ _).2.1
    · rw [(joinTracks_proj _).2.2, (joinTracks_proj _).2.2, List.length_flatten,
        List.length_flatten]
      simp only [List.map_map]
      refine congrArg List.sum (List.map_congr_left ?_)
      intro a _
      simp only [Function.comp_apply]
      exact (render_chord_length_indep cfg _ _ _ _).2.2

theorem render_measures_cons_ok (cfg : AccompanimentConfig) (bpb : ℕ) (s : ℚ)
    (m : List String) (rest : List (List String)) (u v : Tracks)
    (hu : render_measure cfg bpb s m = .ok u)
    (hv : render_measures cfg bpb (s + bpb) rest = .ok v) :
    render_measures cfg bpb s (m :: rest) = .ok (u.append v) := by
  simp only [render_measures]
  rw [hu, hv]

theorem render_measures_ok (cfg : AccompanimentConfig) (bpb : ℕ) :
    ∀ (ms : List (List String)) (s : ℚ), (∀ m ∈ ms, m ≠ []) →
      ∃ tr, render_measures cfg bpb s ms = .ok tr := by
  intro ms
  induction ms with
  | nil => exact fun s _ => ⟨Tracks.emptyT, rfl⟩
  | cons m rest ih =>
    intro s h
    have hm : ¬ m.length = 0 := by
      simpa [List.length_eq_zero] using h m (by simp)
    obtain ⟨tr2, h2⟩ := ih (s + bpb) (fun x hx => h x (by simp [hx]))
    exact ⟨_, render_measures_cons_ok cfg bpb s m rest _ tr2
      (render_measure_eq cfg bpb s m hm) h2⟩

theorem render_measures_cons_inv (cfg : AccompanimentConfig) (bpb : ℕ) (s : ℚ)
    (m : List String) (rest : List (List String)) (tr : Tracks)
    (h : render_measures cfg bpb s (m :: rest) = .ok tr) :
    ∃ u v, render_measure cfg bpb s m = .ok u ∧
      render_measures cfg bpb (s + bpb) rest = .ok v ∧ tr = u.append v := by
  revert h
  simp only [render_measures]
  cases hu : render_measure cfg bpb s m with
  | error e => intro h; cases h
  | ok u =>
    cases hv : render_measures cfg bpb (s + (bpb : ℚ)) rest with
    | error e => intro h; cases h
    | ok v =>
      intro h
      cases h
      exact ⟨u, v, rfl, rfl, rfl⟩

theorem render_measures_pair (cfg : AccompanimentConfig) (bpb : ℕ) :
    ∀ (ms : List (List String)) (s1 s2 : ℚ) (tr1 tr2 : Tracks),
      render_measures cfg bpb s1 ms = .ok tr1 →
      render_measures cfg bpb s2 ms = .ok tr2 →
      tr1.drums.length = tr2.drums.length ∧ tr1.bass.length = tr2.bass.length ∧
        tr1.piano.length = tr2.piano.length := by
  intro ms
  induction ms with
  | nil =>
    intro s1 s2 tr1 tr2 h1 h2
    simp only [render_measures] at h1 h2
    injection h1 with e1
    injection h2 with e2
    subst e1; subst e2
    exact ⟨rfl, rfl, rfl⟩
  | cons m rest ih =>
    intro s1 s2 tr1 tr2 h1 h2
    obtain ⟨u1, v1, hu1, hv1, rfl⟩ := render_measures_cons_inv cfg bpb s1 m rest tr1 h1
    obtain ⟨u2, v2, hu2, hv2, rfl⟩ := render_measures_cons_inv cfg bpb s2 m rest tr2 h2
    obtain ⟨du, bu, pu⟩ := render_measure_pair cfg bpb s1 s2 m u1 u2 hu1 hu2
    obtain ⟨dv, bv, pv⟩ := ih (s1 + bpb) (s2 + bpb) v1 v2 hv1 hv2
    exact ⟨by simp [Tracks.append, du, dv], by simp [Tracks.append, bu, bv],
      by simp [Tracks.append, pu, pv]⟩

theorem render_measures_repeats_irrel (cfg : AccompanimentConfig) (k : ℕ) (bpb : ℕ) :
    ∀ (ms : List (List String)) (s : ℚ),
      render_measures {cfg with repeats := k} bpb s ms = render_measures cfg bpb s ms := by
  intro ms
  induction ms with
  | nil => intro s; rfl
  | cons m rest ih =>
    intro s
    simp only [render_measures]
    rw [ih]
    have hm : render_measure {cfg with repeats := k} bpb s m = render_measure cfg bpb s m := rfl
    rw [hm]

theorem render_repeats_ok_len (cfg : AccompanimentConfig) (ms : List (List String))
    (bpb : ℕ) (h : ∀ m ∈ ms, m ≠ []) (p0 : Tracks)
    (hp0 : render_measures cfg bpb 0 ms = .ok p0) :
    ∀ (n : ℕ) (s : ℚ), ∃ tr, render_repeats cfg ms bpb n s = .ok tr ∧
      tr.drums.length = n * p0.drums.length ∧
      tr.bass.length = n * p0.bass.length ∧
      tr.piano.length = n * p0.piano.length := by
  intro n
  induction n with
  | zero =>
    exact fun s => ⟨Tracks.emptyT, rfl, by simp [Tracks.emptyT], by simp [Tracks.emptyT],
      by simp [Tracks.emptyT]⟩
  | succ k ih =>
    intro s
    obtain ⟨u, hu⟩ := render_measures_ok cfg bpb ms s h
    obtain ⟨v, hv, dv, bv, pv⟩ := ih (s + (ms.length : ℚ) * (bpb : ℚ))
    obtain ⟨du, bu, pu⟩ := render_measures_pair cfg bpb ms s 0 u p0 hu hp0
    refine ⟨u.append v, ?_, ?_, ?_, ?_⟩
    · simp only [render_repeats]
      rw [hu, hv]
    · simp [Tracks.append, du, dv, Nat.succ_mul, Nat.add_comm]
    · simp [Tracks.append, bu, bv, Nat.succ_mul, Nat.add_comm]
    · simp [Tracks.append, pu, pv, Nat.succ_mul, Nat.add_comm]

/-! ## Claim C8 -/

/-- C8: with every measure non-empty (so rendering succeeds at all), the
per-instrument note-event count at `repeats = n` is exactly `n` times the
count at `repeats = 1`; and `repeats = 0` always yields no events at all. -/
theorem generate_builtin_repeats_scale :
    (∀ (score : Score) (cfg : AccompanimentConfig) (n : ℕ),
      (∀ m ∈ score.measures, m ≠ []) →
      ∃ t1 tn, generate_builtin score {cfg with repeats := 1} = .ok t1 ∧
        generate_builtin score {cfg with repeats := n} = .ok tn ∧
        tn.drums.length = n * t1.drums.length ∧
        tn.bass.length = n * t1.bass.length ∧
        tn.piano.length = n * t1.piano.length) ∧
    (∀ (score : Score) (cfg : AccompanimentConfig),
      generate_builtin score {cfg with repeats := 0} = .ok Tracks.emptyT) := by
  constructor
  · intro score cfg n h
    obtain ⟨p0, hp0⟩ := render_measures_ok {cfg with repeats := 1}
      score.time_signature.1 score.measures 0 h
    have hp0c : render_measures cfg score.time_signature.1 0 score.measures = .ok p0 := by
      rw [← render_measures_repeats_irrel cfg 1 score.time_signature.1]
      exact hp0
    have hp0n : render_measures {cfg with repeats := n}
        score.time_signature.1 0 score.measures = .ok p0 := by
      rw [render_measures_repeats_irrel cfg n score.time_signature.1]
      exact hp0c
    obtain ⟨t1, ht1, d1, b1, q1⟩ := render_repeats_ok_len {cfg with repeats := 1}
      score.measures score.time_signature.1 h p0 hp0 1 0
    obtain ⟨tn, htn, dn, bn, qn⟩ := render_repeats_ok_len {cfg with repeats := n}
      score.measures score.time_signature.1 h p0 hp0n n 0
    refine ⟨t1, tn, ht1, htn, ?_, ?_, ?_⟩
    · rw [dn, d1]; simp
    · rw [bn, b1]; simp
    · rw [qn, q1]; simp
  · intro score cfg
    rfl

/-! ## Claim C9 -/

/-- C9: the builtin arranger divides `beats_per_bar` by each measure's chord
count, so rendering succeeds whenever every measure is non-empty; yet
`ensure_score` accepts a pre-built measures list containing an empty measure
without error, and rendering the resulting Score raises the
`ZeroDivisionError` — the Measure non-emptiness invariant is not enforced at
the coercion boundary. -/
theorem generate_builtin_empty_measure_divzero :
    (∀ (score : Score) (cfg : AccompanimentConfig),
      (∀ m ∈ score.measures, m ≠ []) → ∃ tr, generate_builtin score cfg = .ok tr) ∧
    (∀ p : String → Except String Score,
      ensure_score p (.pylist [PyItem.seq [PyVal.vstr "C"], PyItem.seq []])
          "Untitled" "C" (4, 4) =
        .ok ⟨[["C"], []], "Untitled", "", "C", (4, 4)⟩) ∧
    (generate_builtin ⟨[["C"], []], "Untitled", "", "C", (4, 4)⟩
        ⟨"swing", 120, 1, true, true, true, 4/5, 9/10, 7/10⟩ =
      .error "ZeroDivisionError: integer division or modulo by zero") := by
  refine ⟨?_, fun p => rfl, by with_unfolding_all decide⟩
  intro score cfg h
  obtain ⟨p0, hp0⟩ := render_measures_ok cfg score.time_signature.1 score.measures 0 h
  obtain ⟨tr, htr, _⟩ := render_repeats_ok_len cfg score.measures
    score.time_signature.1 h p0 hp0 cfg.repeats 0
  exact ⟨tr, htr⟩

/-- Witness for C8: the one-bar progression `[["C"]]` at `n = 4`. -/
theorem generate_builtin_repeats_scale_witness :
    (∃ t1 tn,
      generate_builtin ⟨[["C"]], "Untitled", "", "C", (4, 4)⟩
          {(⟨"swing", 120, 2, true, true, true, 4/5, 9/10, 7/10⟩ :
            AccompanimentConfig) with repeats := 1} = .ok t1 ∧
      generate_builtin ⟨[["C"]], "Untitled", "", "C", (4, 4)⟩
          {(⟨"swing", 120, 2, true, true, true, 4/5, 9/10, 7/10⟩ :
            AccompanimentConfig) with repeats := 4} = .ok tn ∧
      tn.drums.length = 4 * t1.drums.length ∧
      tn.bass.length = 4 * t1.bass.length ∧
      tn.piano.length = 4 * t1.piano.length) ∧
    generate_builtin ⟨[["C"]], "Untitled", "", "C", (4, 4)⟩
        {(⟨"swing", 120, 2, true, true, true, 4/5, 9/10, 7/10⟩ :
          AccompanimentConfig) with repeats := 0} = .ok Tracks.emptyT :=
  ⟨generate_builtin_repeats_scale.1 ⟨[["C"]], "Untitled", "", "C", (4, 4)⟩
      ⟨"swing", 120, 2, true, true, true, 4/5, 9/10, 7/10⟩ 4 (by decide),
   generate_builtin_repeats_scale.2 ⟨[["C"]], "Untitled", "", "C", (4, 4)⟩
      ⟨"swing", 120, 2, true, true, true, 4/5, 9/10, 7/10⟩⟩

/-- Witness for C9: a well-formed two-measure score renders, while the
coerced `[["C"], []]` score raises at render time. -/
theorem generate_builtin_empty_measure_divzero_witness :
    (∃ tr, generate_builtin ⟨[["C"], ["F", "G"]], "Untitled", "", "C", (4, 4)⟩
        ⟨"swing", 120, 1, true, true, true, 4/5, 9/10, 7/10⟩ = .ok tr) ∧
    ensure_score (fun _ => .error "")
        (.pylist [PyItem.seq [PyVal.vstr "C"], PyItem.seq []]) "Untitled" "C" (4, 4) =
      .ok ⟨[["C"], []], "Untitled", "", "C", (4, 4)⟩ ∧
    generate_builtin ⟨[["C"], []], "Untitled", "", "C", (4, 4)⟩
        ⟨"swing", 120, 1, true, true, true, 4/5, 9/10, 7/10⟩ =
      .error "ZeroDivisionError: integer division or modulo by zero" :=
  ⟨generate_builtin_empty_measure_divzero.1 ⟨[["C"], ["F", "G"]], "Untitled", "", "C", (4, 4)⟩
      ⟨"swing", 120, 1, true, true, true, 4/5, 9/10, 7/10⟩ (by decide),
   generate_builtin_empty_measure_divzero.2.1 (fun _ => .error ""),
   generate_builtin_empty_measure_divzero.2.2⟩

/-! ## Velocity arithmetic lemmas -/

theorem pyInt_eq_floor (q : ℚ) (h : 0 ≤ q) : pyInt q = ⌊q⌋ := by
  unfold pyInt
  rw [Int.tdiv_eq_ediv (Rat.num_nonneg.mpr h) (by positivity), Rat.floor_def]

theorem pyInt_bounds (q : ℚ) (c : ℕ) (h0 : 0 ≤ q) (hc : q ≤ (c : ℚ)) :
    0 ≤ pyInt q ∧ pyInt q ≤ (c : ℤ) := by
  rw [pyInt_eq_floor q h0]
  constructor
  · exact Int.floor_nonneg.mpr h0
  · calc ⌊q⌋ ≤ ⌊(c : ℚ)⌋ := Int.floor_le_floor hc
    _ = (c : ℤ) := by rw [Int.floor_natCast]

theorem pyInt_base_vol_bounds (b : ℕ) (v : ℚ) (hb : b ≤ 127)
    (h0 : 0 ≤ v) (h1 : v ≤ 1) :
    0 ≤ pyInt ((b : ℚ) * v) ∧ pyInt ((b : ℚ) * v) ≤ 127 := by
  have h127 : (b : ℚ) * v ≤ (127 : ℕ) := by
    calc (b : ℚ) * v ≤ (b : ℚ) := mul_le_of_le_one_right (by positivity) h1
    _ ≤ ((127 : ℕ) : ℚ) := by exact_mod_cast hb
  have := pyInt_bounds ((b : ℚ) * v) 127 (by positivity) h127
  exact ⟨this.1, by exact_mod_cast this.2⟩

theorem add_drum_pattern_velocity (t : ℕ) (s : ℚ) (d : ℕ) (p : List (ℚ × ℕ × ℕ))
    (vol : ℚ) (e : NoteEv) (he : e ∈ add_drum_pattern t s d p vol) :
    ∃ x ∈ p, x.1 < (d : ℚ) ∧ e.velocity = pyInt ((x.2.2 : ℚ) * vol) := by
  unfold add_drum_pattern at he
  rw [List.mem_filterMap] at he
  obtain ⟨x, hx, hfx⟩ := he
  by_cases hc : x.1 < (d : ℚ)
  · rw [if_pos hc] at hfx
    injection hfx with e1
    exact ⟨x, hx, hc, by rw [← e1]⟩
  · rw [if_neg hc] at hfx
    cases hfx

theorem add_drum_pattern_vel_bounds (t : ℕ) (s : ℚ) (d : ℕ)
    (p : List (ℚ × ℕ × ℕ)) (vol : ℚ) (h0 : 0 ≤ vol) (h1 : vol ≤ 1)
    (hp : ∀ x ∈ p, x.2.2 ≤ 127) :
    ∀ e ∈ add_drum_pattern t s d p vol, 0 ≤ e.velocity ∧ e.velocity ≤ 127 := by
  intro e he
  obtain ⟨x, hx, _, hv⟩ := add_drum_pattern_velocity t s d p vol e he
  rw [hv]
  exact pyInt_base_vol_bounds x.2.2 vol (hp x hx) h0 h1

theorem add_bass_pattern_velocity (t : ℕ) (s : ℚ) (d : ℕ) (r : ℤ) (cn : List ℤ)
    (pt : String) (vol : ℚ) :
    ∀ e ∈ add_bass_pattern t s d r cn pt vol, e.velocity = pyInt (100 * vol) := by
  intro e he
  by_cases h1 : pt = "walking"
  · simp [add_bass_pattern, h1, List.mem_map] at he
    obtain ⟨x, hx, _, heq⟩ := he
    rw [← heq]
  · by_cases h2 : pt = "bossa"
    · simp [add_bass_pattern, h1, h2, List.mem_cons] at he
      rcases he with rfl | ⟨_, rfl⟩ <;> rfl
    · by_cases h3 : pt = "root"
      · simp [add_bass_pattern, h1, h2, h3, List.mem_map] at he
        obtain ⟨i, hi, heq⟩ := he
        rw [← heq]
      · by_cases h4 : pt = "half"
        · simp [add_bass_pattern, h1, h2, h3, h4] at he
          rw [he]
        · simp [add_bass_pattern, h1, h2, h3, h4] at he
          rw [he]

theorem add_piano_pattern_vel_bounds (t : ℕ) (s : ℚ) (d : ℕ) (cn : List ℤ)
    (pt : String) (vol : ℚ) (h0 : 0 ≤ vol) (h1 : vol ≤ 1) :
    ∀ e ∈ add_piano_pattern t s d cn pt vol, 0 ≤ e.velocity ∧ e.velocity ≤ 127 := by
  have hv : 0 ≤ pyInt (90 * vol) ∧ pyInt (90 * vol) ≤ 127 := by
    have := pyInt_base_vol_bounds 90 vol (by norm_num) h0 h1
    simpa using this
  have hv2 : 0 ≤ pyInt ((pyInt (90 * vol) : ℚ) * (4 / 5)) ∧
      pyInt ((pyInt (90 * vol) : ℚ) * (4 / 5)) ≤ 127 := by
    have hq0 : (0 : ℚ) ≤ (pyInt (90 * vol) : ℚ) * (4 / 5) := by
      have := hv.1
      positivity
    have hq127 : (pyInt (90 * vol) : ℚ) * (4 / 5) ≤ ((127 : ℕ) : ℚ) := by
      have h127 : (pyInt (90 * vol) : ℚ) ≤ 127 := by exact_mod_cast hv.2
      push_cast
      nlinarith
    have := pyInt_bounds _ 127 hq0 hq127
    exact ⟨this.1, by exact_mod_cast this.2⟩
  intro e he
  simp only [add_piano_pattern] at he
  by_cases hp1 : pt = "comping"
  · rw [if_pos hp1, List.mem_append] at he
    rcases he with he | he
    · by_cases hd : 2 ≤ d
      · rw [if_pos hd] at he
        obtain ⟨x, _, rfl⟩ := List.mem_map.mp he
        exact hv
      · rw [if_neg hd] at he
        cases he
    · by_cases hd : 4 ≤ d
      · rw [if_pos hd] at he
        obtain ⟨x, _, rfl⟩ := List.mem_map.mp he
        exact hv
      · rw [if_neg hd] at he
        cases he
  · rw [if_neg hp1] at he
    by_cases hp2 : pt = "bossa"
    · rw [if_pos hp2, List.mem_append] at he
      rcases he with he | he
      · obtain ⟨x, _, rfl⟩ := List.mem_map.mp he
        exact hv
      · by_cases hd : 1 < d
        · rw [if_pos hd] at he
          obtain ⟨x, _, rfl⟩ := List.mem_map.mp he
          exact hv2
        · rw [if_neg hd] at he
          cases he
    · rw [if_neg hp2] at he
      by_cases hp3 : pt = "block"
      · rw [if_pos hp3] at he
        rw [List.mem_flatten] at he
        obtain ⟨l, hl, hel⟩ := he
        obtain ⟨i, _, rfl⟩ := List.mem_map.mp hl
        obtain ⟨x, _, rfl⟩ := List.mem_map.mp hel
        exact hv
      · rw [if_neg hp3] at he
        by_cases hp4 : pt = "arpeggiate"
        · rw [if_pos hp4] at he
          obtain ⟨x, _, rfl⟩ := List.mem_map.mp he
          exact hv
        · rw [if_neg hp4] at he
          obtain ⟨x, _, rfl⟩ := List.mem_map.mp he
          exact hv

theorem style_drum_velocities_le (style : String) :
    ∀ x ∈ (get_style_patterns style).drums, x.2.2 ≤ 127 := by
  have hm := lookup_getD_mem stylePatternsTable style swingStyleEntry
  have hall : ∀ entry ∈ swingStyleEntry :: stylePatternsTable.map Prod.snd,
      ∀ x ∈ entry.drums, x.2.2 ≤ 127 := by decide
  exact hall _ hm

theorem render_chord_vel_bounds (cfg : AccompanimentConfig) (s : ℚ) (bpc : ℕ)
    (sym : String) (hd0 : 0 ≤ cfg.vol_drums) (hd1 : cfg.vol_drums ≤ 1)
    (hb0 : 0 ≤ cfg.vol_bass) (hb1 : cfg.vol_bass ≤ 1)
    (hq0 : 0 ≤ cfg.vol_piano) (hq1 : cfg.vol_piano ≤ 1) :
    ∀ e ∈ (render_chord cfg s bpc sym).drums ++ (render_chord cfg s bpc sym).bass ++
        (render_chord cfg s bpc sym).piano,
      0 ≤ e.velocity ∧ e.velocity ≤ 127 := by
  intro e he
  simp only [render_chord] at he
  by_cases hs : sym = "" ∨ sym = "n" ∨ sym = "N.C." ∨ sym = "NC"
  · rw [if_pos hs] at he
    simp [Tracks.emptyT] at he
  · rw [if_neg hs] at he
    rw [List.mem_append, List.mem_append] at he
    rcases he with (he | he) | he
    · by_cases hfl : cfg.drums
      · rw [if_pos hfl] at he
        exact add_drum_pattern_vel_bounds _ _ _ _ _ hd0 hd1
          (style_drum_velocities_le cfg.style) e he
      · rw [if_neg hfl] at he
        cases he
    · by_cases hfl : cfg.bass
      · rw [if_pos hfl] at he
        rw [add_bass_pattern_velocity (trackB cfg) s bpc _
          (basic_chord_to_notes sym.data) (get_style_patterns cfg.style).bass
          cfg.vol_bass e he]
        have := pyInt_base_vol_bounds 100 cfg.vol_bass (by norm_num) hb0 hb1
        simpa using this
      · rw [if_neg hfl] at he
        cases he
    · by_cases hfl : cfg.piano
      · rw [if_pos hfl] at he
        exact add_piano_pattern_vel_bounds _ _ _ _ _ _ hq0 hq1 e he
      · rw [if_neg hfl] at he
        cases he

theorem joinTracks_mem_cases (l : List Tracks) (e : NoteEv)
    (he : e ∈ (joinTracks l).drums ++ (joinTracks l).bass ++ (joinTracks l).piano) :
    ∃ t ∈ l, e ∈ t.drums ++ t.bass ++ t.piano := by
  rw [(joinTracks_proj l).1, (joinTracks_proj l).2.1, (joinTracks_proj l).2.2] at he
  rw [List.mem_append, List.mem_append] at he
  rcases he with (h | h) | h <;>
    · rw [List.mem_flatten] at h
      obtain ⟨x, hx, hex⟩ := h
      obtain ⟨t, ht, rfl⟩ := List.mem_map.mp hx
      exact ⟨t, ht, by simp [List.mem_append, hex]⟩

theorem render_measure_vel_bounds (cfg : AccompanimentConfig) (bpb : ℕ) (s : ℚ)
    (m : List String) (tr : Tracks) (htr : render_measure cfg bpb s m = .ok tr)
    (hd0 : 0 ≤ cfg.vol_drums) (hd1 : cfg.vol_drums ≤ 1)
    (hb0 : 0 ≤ cfg.vol_bass) (hb1 : cfg.vol_bass ≤ 1)
    (hq0 : 0 ≤ cfg.vol_piano) (hq1 : cfg.vol_piano ≤ 1) :
    ∀ e ∈ tr.drums ++ tr.bass ++ tr.piano, 0 ≤ e.velocity ∧ e.velocity ≤ 127 := by
  by_cases h : m.length = 0
  · rw [show render_measure cfg bpb s m = .error
        "ZeroDivisionError: integer division or modulo by zero" from by
      unfold render_measure; rw [if_pos h]] at htr
    cases htr
  · rw [render_measure_eq cfg bpb s m h] at htr
    injection htr with e1
    subst e1
    intro e he
    obtain ⟨t, ht, het⟩ := joinTracks_mem_cases _ e he
    obtain ⟨x, _, rfl⟩ := List.mem_map.mp ht
    exact render_chord_vel_bounds cfg _ _ _ hd0 hd1 hb0 hb1 hq0 hq1 e het

theorem tracks_append_mem (a b : Tracks) (e : NoteEv)
    (he : e ∈ (a.append b).drums ++ (a.append b).bass ++ (a.append b).piano) :
    e ∈ a.drums ++ a.bass ++ a.piano ∨ e ∈ b.drums ++ b.bass ++ b.piano := by
  simp only [Tracks.append, List.mem_append] at he ⊢
  tauto

theorem render_measures_vel_bounds (cfg : AccompanimentConfig) (bpb : ℕ) :
    ∀ (ms : List (List String)) (s : ℚ) (tr : Tracks),
      render_measures cfg bpb s ms = .ok tr →
      0 ≤ cfg.vol_drums → cfg.vol_drums ≤ 1 →
      0 ≤ cfg.vol_bass → cfg.vol_bass ≤ 1 →
      0 ≤ cfg.vol_piano → cfg.vol_piano ≤ 1 →
      ∀ e ∈ tr.drums ++ tr.bass ++ tr.piano, 0 ≤ e.velocity ∧ e.velocity ≤ 127 := by
  intro ms
  induction ms with
  | nil =>
    intro s tr htr _ _ _ _ _ _
    simp only [render_measures] at htr
    injection htr with e1
    subst e1
    intro e he
    simp [Tracks.emptyT] at he
  | cons m rest ih =>
    intro s tr htr hd0 hd1 hb0 hb1 hq0 hq1
    obtain ⟨u, v, hu, hv, rfl⟩ := render_measures_cons_inv cfg bpb s m rest tr htr
    intro e he
    rcases tracks_append_mem u v e he with h | h
    · exact render_measure_vel_bounds cfg bpb s m u hu hd0 hd1 hb0 hb1 hq0 hq1 e h
    · exact ih (s + bpb) v hv hd0 hd1 hb0 hb1 hq0 hq1 e h

theorem render_repeats_cons_inv (cfg : AccompanimentConfig)
    (ms : List (List String)) (bpb : ℕ) (n : ℕ) (s : ℚ) (tr : Tracks)
    (h : render_repeats cfg ms bpb (n + 1) s = .ok tr) :
    ∃ u v, render_measures cfg bpb s ms = .ok u ∧
      render_repeats cfg ms bpb n (s + (ms.length : ℚ) * (bpb : ℚ)) = .ok v ∧
      tr = u.append v := by
  revert h
  simp only [render_repeats]
  cases hu : render_measures cfg bpb s ms with
  | error e => intro h; cases h
  | ok u =>
    cases hv : render_repeats cfg ms bpb n (s + (ms.length : ℚ) * (bpb : ℚ)) with
    | error e => intro h; cases h
    | ok v =>
      intro h
      cases h
      exact ⟨u, v, rfl, rfl, rfl⟩

theorem render_repeats_vel_bounds (cfg : AccompanimentConfig)
    (ms : List (List String)) (bpb : ℕ) :
    ∀ (n : ℕ) (s : ℚ) (tr : Tracks),
      render_repeats cfg ms bpb n s = .ok tr →
      0 ≤ cfg.vol_drums → cfg.vol_drums ≤ 1 →
      0 ≤ cfg.vol_bass → cfg.vol_bass ≤ 1 →
      0 ≤ cfg.vol_piano → cfg.vol_piano ≤ 1 →
      ∀ e ∈ tr.drums ++ tr.bass ++ tr.piano, 0 ≤ e.velocity ∧ e.velocity ≤ 127 := by
  intro n
  induction n with
  | zero =>
    intro s tr htr _ _ _ _ _ _
    injection htr with e1
    subst e1
    intro e he
    simp [Tracks.emptyT] at he
  | succ k ih =>
    intro s tr htr hd0 hd1 hb0 hb1 hq0 hq1
    obtain ⟨u, v, hu, hv, rfl⟩ := render_repeats_cons_inv cfg ms bpb k s tr htr
    intro e he
    rcases tracks_append_mem u v e he with h | h
    · exact render_measures_vel_bounds cfg bpb ms s u hu hd0 hd1 hb0 hb1 hq0 hq1 e h
    · exact ih _ v hv hd0 hd1 hb0 hb1 hq0 hq1 e h

/-! ## Claim C3 -/

/-- C3 counterexample: rendering `[["C"]]` in style `"rock"` with drum volume
`3/4` emits the hit from template entry `(1, 38, 90)` with velocity
`int(90 * 0.75) = 67`, while the claimed `round(90 * 0.75)` clamped to
`[0, 127]` is `68` (Python's banker's rounding and round-half-up agree
here), so emitted velocities are truncated, not rounded. -/
theorem velocity_not_rounded_counterexample :
    generate_builtin ⟨[["C"]], "Untitled", "", "C", (4, 4)⟩
        ⟨"rock", 120, 1, true, false, false, 3/4, 3/4, 3/4⟩ =
      .ok ⟨[⟨0, 9, 36, 0, 1/4, 75⟩, ⟨0, 9, 38, 1, 1/4, 67⟩,
            ⟨0, 9, 36, 2, 1/4, 75⟩, ⟨0, 9, 38, 3, 1/4, 67⟩], [], []⟩ ∧
    (67 : ℤ) ≠ max 0 (min 127 (round ((90 : ℚ) * (3 / 4)))) :=
  ⟨by with_unfolding_all decide, by norm_num [round_eq]⟩

/-- C3 amended: every emitted drum event's velocity is
`int(base_velocity * volume)` — truncation toward zero, with no rounding and
no clamping — and for any configured volumes in `[0, 1]` every note event
emitted by the builtin generator (all instruments) has velocity in
`[0, 127]`. -/
theorem velocity_truncated_and_bounded :
    (∀ (t : ℕ) (s : ℚ) (d : ℕ) (p : List (ℚ × ℕ × ℕ)) (vol : ℚ) (e : NoteEv),
      e ∈ add_drum_pattern t s d p vol →
      ∃ x ∈ p, x.1 < (d : ℚ) ∧ e.velocity = pyInt ((x.2.2 : ℚ) * vol)) ∧
    (∀ (score : Score) (cfg : AccompanimentConfig) (tr : Tracks),
      generate_builtin score cfg = .ok tr →
      0 ≤ cfg.vol_drums → cfg.vol_drums ≤ 1 →
      0 ≤ cfg.vol_bass → cfg.vol_bass ≤ 1 →
      0 ≤ cfg.vol_piano → cfg.vol_piano ≤ 1 →
      ∀ e ∈ tr.drums ++ tr.bass ++ tr.piano, 0 ≤ e.velocity ∧ e.velocity ≤ 127) :=
  ⟨add_drum_pattern_velocity,
   fun score cfg tr htr hd0 hd1 hb0 hb1 hq0 hq1 =>
     render_repeats_vel_bounds cfg score.measures score.time_signature.1
       cfg.repeats 0 tr htr hd0 hd1 hb0 hb1 hq0 hq1⟩

/-- Witness for C3 (amended): a concrete one-entry drum pattern, and the
empty score rendered under in-range volumes. -/
theorem velocity_truncated_and_bounded_witness :
    (∃ x ∈ ([(1, 38, 90)] : List (ℚ × ℕ × ℕ)), x.1 < ((4 : ℕ) : ℚ) ∧
      (⟨0, 9, 38, 0 + 1, 1/4, pyInt ((90 : ℚ) * (3/4))⟩ : NoteEv).velocity =
        pyInt ((x.2.2 : ℚ) * (3/4))) ∧
    (∀ e ∈ Tracks.emptyT.drums ++ Tracks.emptyT.bass ++ Tracks.emptyT.piano,
      0 ≤ e.velocity ∧ e.velocity ≤ 127) :=
  ⟨velocity_truncated_and_bounded.1 0 0 4 [(1, 38, 90)] (3/4)
      ⟨0, 9, 38, 0 + 1, 1/4, pyInt ((90 : ℚ) * (3/4))⟩ (by with_unfolding_all decide),
   velocity_truncated_and_bounded.2 ⟨[], "Untitled", "", "C", (4, 4)⟩
      ⟨"swing", 120, 2, true, true, true, 4/5, 9/10, 7/10⟩ Tracks.emptyT rfl
      (by norm_num) (by norm_num) (by norm_num) (by norm_num) (by norm_num) (by norm_num)⟩

/-! ## Parser lemmas: repeat sentinels never reach barred parse output -/

theorem replaceAllFuel_unchanged_or_slash (pat rep : List Char) (hrep : '/' ∈ rep) :
    ∀ (fuel : ℕ) (l : List Char),
      replaceAllFuel pat rep fuel l = l ∨ '/' ∈ replaceAllFuel pat rep fuel l := by
  intro fuel
  induction fuel with
  | zero => exact fun l => Or.inl rfl
  | succ f ih =>
    intro l
    cases l with
    | nil => exact Or.inl rfl
    | cons c cs =>
      by_cases hp : pat.isPrefixOf (c :: cs) && !pat.isEmpty
      · right
        simp only [replaceAllFuel, hp, if_true]
        exact List.mem_append.mpr (Or.inl hrep)
      · rw [show replaceAllFuel pat rep (f + 1) (c :: cs) =
            c :: replaceAllFuel pat rep f cs from by simp [replaceAllFuel, hp]]
        rcases ih cs with h | h
        · exact Or.inl (by rw [h])
        · exact Or.inr (List.mem_cons.mpr (Or.inr h))

theorem mem_replaceAllFuel (pat rep : List Char) :
    ∀ (fuel : ℕ) (l : List Char) (c : Char),
      c ∈ replaceAllFuel pat rep fuel l → c ∈ l ∨ c ∈ rep := by
  intro fuel
  induction fuel with
  | zero => exact fun l c h => Or.inl h
  | succ f ih =>
    intro l c
    cases l with
    | nil => exact fun h => Or.inl h
    | cons a cs =>
      by_cases hp : pat.isPrefixOf (a :: cs) && !pat.isEmpty
      · simp only [replaceAllFuel, hp, if_true]
        intro h
        rcases List.mem_append.mp h with h | h
        · exact Or.inr h
        · rcases ih _ c h with h2 | h2
          · exact Or.inl (List.mem_of_mem_drop h2)
          · exact Or.inr h2
      · rw [show replaceAllFuel pat rep (f + 1) (a :: cs) =
            a :: replaceAllFuel pat rep f cs from by simp [replaceAllFuel, hp]]
        intro h
        rcases List.mem_cons.mp h with rfl | h2
        · exact Or.inl (List.mem_cons_self _ _)
        · rcases ih _ c h2 with h3 | h3
          · exact Or.inl (List.mem_cons.mpr (Or.inr h3))
          · exact Or.inr h3

theorem suffix_of_singleton {l : List Char} {a : Char} (h : l <:+ [a]) :
    l = [] ∨ l = [a] := by
  obtain ⟨t, ht⟩ := h
  cases t with
  | nil => exact Or.inr (by simpa using ht)
  | cons b t2 =>
    left
    have hlen : ((b :: t2) ++ l).length = 1 := by rw [ht]; rfl
    rw [List.length_append, List.length_cons] at hlen
    exact List.length_eq_zero.mp (by omega)

theorem stripL_eq_self_of_no_ws (t : List Char) (h : ∀ c ∈ t, ¬ c.isWhitespace) :
    stripL t = t := by
  unfold stripL
  have h1 : t.dropWhile Char.isWhitespace = t := by
    cases t with
    | nil => rfl
    | cons c cs =>
      rw [List.dropWhile_cons, if_neg (by simpa using h c (List.mem_cons_self _ _))]
  rw [h1]
  have h2 : t.reverse.dropWhile Char.isWhitespace = t.reverse := by
    cases hr : t.reverse with
    | nil => rfl
    | cons c cs =>
      rw [List.dropWhile_cons, if_neg]
      simp only [Bool.not_eq_true]
      have : c ∈ t := by
        rw [← List.mem_reverse, hr]
        exact List.mem_cons_self _ _
      simpa using h c this
  rw [h2, List.reverse_reverse]

theorem applyRep_good (r : List Char) (p : List Char × List Char)
    (hp : p ∈ replacements) (hws : ∀ c ∈ r, ¬ c.isWhitespace)
    (h1 : r ≠ "%".data) (h2 : r ≠ "x".data) :
    (∀ c ∈ applyRep r p, ¬ c.isWhitespace) ∧ applyRep r p ≠ "%".data ∧
      applyRep r p ≠ "x".data := by
  have facts : ∀ q ∈ replacements, q.2 ≠ [] ∧ q.2 ≠ ['%'] ∧ q.2 ≠ ['x'] ∧
      ∀ c ∈ q.2, ¬ c.isWhitespace := by decide
  obtain ⟨hne, hpc, hxc, hwsp⟩ := facts p hp
  have epc : "%".data = ['%'] := rfl
  have exc : "x".data = ['x'] := rfl
  unfold applyRep
  by_cases hs : p.1.isSuffixOf r
  · rw [if_pos hs]
    refine ⟨?_, ?_, ?_⟩
    · intro c hc
      rcases List.mem_append.mp hc with h | h
      · exact hws c (List.mem_of_mem_take h)
      · exact hwsp c h
    · intro he
      rw [epc] at he
      rcases suffix_of_singleton (he ▸ List.suffix_append _ _) with h | h
      · exact hne h
      · exact hpc h
    · intro he
      rw [exc] at he
      rcases suffix_of_singleton (he ▸ List.suffix_append _ _) with h | h
      · exact hne h
      · exact hxc h
  · rw [if_neg hs]
    by_cases hsub : hasSub (p.1 ++ ['/']) r
    · rw [if_pos hsub]
      have hsl : '/' ∈ p.2 ++ ['/'] := List.mem_append.mpr (Or.inr (by simp))
      rcases replaceAllFuel_unchanged_or_slash (p.1 ++ ['/']) (p.2 ++ ['/']) hsl
          r.length r with h | h
      · unfold replaceAll
        rw [h]
        exact ⟨hws, h1, h2⟩
      · unfold replaceAll
        refine ⟨?_, ?_, ?_⟩
        · intro c hc
          rcases mem_replaceAllFuel _ _ _ _ c hc with h3 | h3
          · exact hws c h3
          · rcases List.mem_append.mp h3 with h4 | h4
            · exact hwsp c h4
            · simp only [List.mem_singleton] at h4
              subst h4
              decide
        · intro he
          rw [he, epc] at h
          simp at h
        · intro he
          rw [he, exc] at h
          simp at h
    · rw [if_neg hsub]
      exact ⟨hws, h1, h2⟩

theorem foldl_applyRep_good :
    ∀ (rules : List (List Char × List Char)), (∀ p ∈ rules, p ∈ replacements) →
    ∀ r : List Char, (∀ c ∈ r, ¬ c.isWhitespace) → r ≠ "%".data → r ≠ "x".data →
      (∀ c ∈ rules.foldl applyRep r, ¬ c.isWhitespace) ∧
        rules.foldl applyRep r ≠ "%".data ∧ rules.foldl applyRep r ≠ "x".data := by
  intro rules
  induction rules with
  | nil => exact fun _ r hws h1 h2 => ⟨hws, h1, h2⟩
  | cons p ps ih =>
    intro hsub r hws h1 h2
    obtain ⟨hws2, h12, h22⟩ :=
      applyRep_good r p (hsub p (List.mem_cons_self _ _)) hws h1 h2
    exact ih (fun q hq => hsub q (List.mem_cons.mpr (Or.inr hq))) _ hws2 h12 h22

theorem normalize_good (t : List Char) (hws : ∀ c ∈ t, ¬ c.isWhitespace)
    (h1 : t ≠ "%".data) (h2 : t ≠ "x".data) :
    (∀ c ∈ normalize_chord_symbol_data t, ¬ c.isWhitespace) ∧
      normalize_chord_symbol_data t ≠ "%".data ∧
      normalize_chord_symbol_data t ≠ "x".data := by
  unfold normalize_chord_symbol_data
  rw [stripL_eq_self_of_no_ws t hws]
  by_cases hsen : t ∈ sentinels
  · rw [if_pos hsen]
    exact ⟨hws, h1, h2⟩
  · rw [if_neg hsen]
    exact foldl_applyRep_good replacements (fun p hp => hp) t hws h1 h2

theorem splitWSAux_no_ws :
    ∀ (l acc : List Char), (∀ c ∈ acc, ¬ c.isWhitespace) →
      ∀ t ∈ splitWSAux l acc, ∀ c ∈ t, ¬ c.isWhitespace := by
  intro l
  induction l with
  | nil =>
    intro acc hacc t ht
    unfold splitWSAux at ht
    by_cases he : acc.isEmpty
    · rw [if_pos he] at ht
      cases ht
    · rw [if_neg he] at ht
      rcases List.mem_singleton.mp ht with rfl
      intro c hc
      exact hacc c (List.mem_reverse.mp hc)
  | cons a cs ih =>
    intro acc hacc t ht
    unfold splitWSAux at ht
    by_cases hw : a.isWhitespace
    · rw [if_pos hw] at ht
      by_cases he : acc.isEmpty
      · rw [if_pos he] at ht
        exact ih [] (by simp) t ht
      · rw [if_neg he] at ht
        rcases List.mem_cons.mp ht with rfl | ht2
        · intro c hc
          exact hacc c (List.mem_reverse.mp hc)
        · exact ih [] (by simp) t ht2
    · rw [if_neg hw] at ht
      refine ih (a :: acc) ?_ t ht
      intro c hc
      rcases List.mem_cons.mp hc with rfl | hc2
      · exact hw
      · exact hacc c hc2

theorem parseBarTokens_no_sentinel :
    ∀ (toks : List (List Char)) (last : List Char),
      (∀ t ∈ toks, ∀ c ∈ t, ¬ c.isWhitespace) →
      (last = [] ∨ ((∀ c ∈ last, ¬ c.isWhitespace) ∧ last ≠ "%".data ∧ last ≠ "x".data)) →
      (∀ ch ∈ (parseBarTokens toks last).1, ch ≠ "%".data ∧ ch ≠ "x".data) ∧
      ((parseBarTokens toks last).2 = [] ∨
        ((∀ c ∈ (parseBarTokens toks last).2, ¬ c.isWhitespace) ∧
          (parseBarTokens toks last).2 ≠ "%".data ∧
          (parseBarTokens toks last).2 ≠ "x".data)) := by
  intro toks
  induction toks with
  | nil =>
    intro last _ hlast
    exact ⟨fun ch hch => absurd hch (List.not_mem_nil ch), hlast⟩
  | cons t ts ih =>
    intro last htoks hlast
    have htws : ∀ c ∈ t, ¬ c.isWhitespace := htoks t (List.mem_cons_self _ _)
    simp only [parseBarTokens]
    set t2 := if t = "%".data ∨ t = "x".data then
        (if last.isEmpty then "C".data else last) else t with ht2
    have hgood : (∀ c ∈ t2, ¬ c.isWhitespace) ∧ t2 ≠ "%".data ∧ t2 ≠ "x".data := by
      rw [ht2]
      by_cases hsen : t = "%".data ∨ t = "x".data
      · rw [if_pos hsen]
        by_cases hemp : last.isEmpty
        · rw [if_pos hemp]
          exact ⟨by decide, by decide, by decide⟩
        · rw [if_neg hemp]
          rcases hlast with rfl | hl
          · simp at hemp
          · exact hl
      · rw [if_neg hsen]
        push_neg at hsen
        exact ⟨htws, hsen.1, hsen.2⟩
    obtain ⟨hng, hn1, hn2⟩ :=
      normalize_good t2 hgood.1 hgood.2.1 hgood.2.2
    have hrec := ih (normalize_chord_symbol_data t2)
      (fun x hx => htoks x (List.mem_cons.mpr (Or.inr hx)))
      (Or.inr ⟨hng, hn1, hn2⟩)
    refine ⟨?_, hrec.2⟩
    intro ch hch
    rcases List.mem_cons.mp hch with rfl | hch2
    · exact ⟨hn1, hn2⟩
    · exact hrec.1 ch hch2

theorem parseBars_no_sentinel :
    ∀ (parts : List (List Char)) (last : List Char),
      (last = [] ∨ ((∀ c ∈ last, ¬ c.isWhitespace) ∧ last ≠ "%".data ∧ last ≠ "x".data)) →
      ∀ m ∈ parseBars parts last, ∀ ch ∈ m, ch ≠ "%".data ∧ ch ≠ "x".data := by
  intro parts
  induction parts with
  | nil => exact fun last _ m hm => absurd hm (List.not_mem_nil m)
  | cons p ps ih =>
    intro last hlast m hm
    simp only [parseBars] at hm
    have htoks : ∀ t ∈ ((splitWSAux p []).map stripL).filter (fun c => !c.isEmpty),
        ∀ c ∈ t, ¬ c.isWhitespace := by
      intro t ht c hc
      have ht2 := List.mem_of_mem_filter ht
      obtain ⟨t0, ht0, rfl⟩ := List.mem_map.mp ht2
      have ht0ws := splitWSAux_no_ws p [] (by simp) t0 ht0
      rw [stripL_eq_self_of_no_ws t0 ht0ws] at hc
      exact ht0ws c hc
    have hbt := parseBarTokens_no_sentinel _ last htoks hlast
    by_cases hemp : (parseBarTokens (((splitWSAux p []).map stripL).filter
        (fun c => !c.isEmpty)) last).1.isEmpty
    · rw [if_pos hemp] at hm
      exact ih _ hbt.2 m hm
    · rw [if_neg hemp] at hm
      rcases List.mem_cons.mp hm with rfl | hm2
      · exact hbt.1
      · exact ih _ hbt.2 m hm2

theorem mem_stripL (c : Char) (l : List Char) (hc : c ∈ l)
    (hw : ¬ c.isWhitespace) : c ∈ stripL l := by
  have step : ∀ m : List Char, c ∈ m → c ∈ m.dropWhile Char.isWhitespace := by
    intro m hm
    have hsplit : c ∈ m.takeWhile Char.isWhitespace ++ m.dropWhile Char.isWhitespace := by
      rw [List.takeWhile_append_dropWhile]
      exact hm
    rcases List.mem_append.mp hsplit with h | h
    · exact absurd (List.mem_takeWhile_imp h) (by simpa using hw)
    · exact h
  unfold stripL
  rw [List.mem_reverse]
  exact step _ (by rw [List.mem_reverse]; exact step _ hc)

theorem parse_chord_string_no_sentinel (l : List Char) (hbar : '|' ∈ l) :
    ∀ m ∈ parse_chord_string_data l, ∀ ch ∈ m,
      ch ≠ "%".data ∧ ch ≠ "x".data := by
  intro m hm
  unfold parse_chord_string_data at hm
  have hbar2 : '|' ∈ stripL l := mem_stripL '|' l hbar (by decide)
  rw [if_pos (by exact List.elem_iff.mpr hbar2)] at hm
  exact parseBars_no_sentinel _ [] (Or.inl rfl) m hm

/-! ## Claim C4 -/

/-- C4 counterexample: in the bar-less (space-separated) branch of
`_parse_chord_string`, repeat sentinels are NOT substituted — `"C %"` parses
to `[["C"], ["%"]]`, not `[["C"], ["C"]]` as the claim requires for every
progression text. -/
theorem parse_repeat_unresolved_without_bars :
    parse_chord_string "C %" = [["C"], ["%"]] ∧
    parse_chord_string "C %" ≠ [["C"], ["C"]] ∧
    parse_chord_string "C x" = [["C"], ["x"]] ∧
    parse_chord_string "C x" ≠ [["C"], ["C"]] := by
  decide

/-- C4 amended: in progression texts containing `'|'`, every repeat sentinel
(`%`/`x`) is substituted by the most recently normalized chord seen anywhere
earlier in the parse, defaulting to `"C"` when none has been resolved yet
(including a leading repeat token); in particular `parse("| C | G | % |")`
has third measure `["G"]`, and no `%`/`x` ever survives into the parsed
measures of a barred text. -/
theorem parse_repeat_resolution_in_barred_texts :
    parse_chord_string "| C | G | % |" = [["C"], ["G"], ["G"]] ∧
    parse_chord_string "| % | C |" = [["C"], ["C"]] ∧
    parse_chord_string "| Dm7 | G7 | C^7 | % |" = [["D-7"], ["G7"], ["C^7"], ["C^7"]] ∧
    parse_chord_string "| C G | x |" = [["C", "G"], ["G"]] ∧
    (∀ l : List Char, '|' ∈ l → ∀ m ∈ parse_chord_string_data l, ∀ ch ∈ m,
      ch ≠ "%".data ∧ ch ≠ "x".data) :=
  ⟨by decide, by decide, by decide, by decide, parse_chord_string_no_sentinel⟩

/-- Witness for C4 (amended) at the concrete barred text `"| C x | % |"`. -/
theorem parse_repeat_resolution_in_barred_texts_witness :
    parse_chord_string "| C | G | % |" = [["C"], ["G"], ["G"]] ∧
    ('|' ∈ "| C x | % |".data ∧
      ∀ m ∈ parse_chord_string_data "| C x | % |".data, ∀ ch ∈ m,
        ch ≠ "%".data ∧ ch ≠ "x".data) :=
  ⟨parse_repeat_resolution_in_barred_texts.1,
   by decide,
   parse_repeat_resolution_in_barred_texts.2.2.2.2 "| C x | % |".data (by decide)⟩

/-! ## Claim C2: idempotence of chord-symbol normalization -/


theorem isPrefixOf_subset : ∀ (p l : List Char), p.isPrefixOf l = true →
    ∀ c ∈ p, c ∈ l := by
  intro p
  induction p with
  | nil => intro l _ c hc; cases hc
  | cons a ps ih =>
    intro l hp c hc
    cases l with
    | nil => cases hp
    | cons b ls =>
      simp only [List.isPrefixOf, Bool.and_eq_true, beq_iff_eq] at hp
      rcases List.mem_cons.mp hc with rfl | hc2
      · exact List.mem_cons.mpr (Or.inl hp.1)
      · exact List.mem_cons.mpr (Or.inr (ih ls hp.2 c hc2))

theorem hasSub_subset : ∀ (l pat : List Char), hasSub pat l = true →
    ∀ c ∈ pat, c ∈ l := by
  intro l
  induction l with
  | nil =>
    intro pat hp c hc
    unfold hasSub at hp
    exact isPrefixOf_subset pat [] hp c hc
  | cons a ls ih =>
    intro pat hp c hc
    unfold hasSub at hp
    rcases Bool.or_eq_true_iff.mp hp with h | h
    · exact isPrefixOf_subset pat (a :: ls) h c hc
    · exact List.mem_cons.mpr (Or.inr (ih pat h c hc))

theorem hasSub_slash_false (pat r : List Char) (h : '/' ∉ r) :
    hasSub (pat ++ ['/']) r = false := by
  cases hs : hasSub (pat ++ ['/']) r
  · rfl
  · exact absurd (hasSub_subset r _ hs '/' (List.mem_append.mpr (Or.inr (by simp)))) h

theorem take_append_of_isSuffixOf (r old : List Char) (h : old.isSuffixOf r = true) :
    r.take (r.length - old.length) ++ old = r := by
  obtain ⟨t, ht⟩ := List.isSuffixOf_iff_suffix.mp h
  subst ht
  rw [List.length_append, Nat.add_sub_cancel, List.take_left]

theorem applyRep_slashfree (r : List Char) (p : List Char × List Char)
    (hp : p ∈ replacements) (h : '/' ∉ r) :
    (applyRep r p = r ∨
      (p.1 ≠ p.2 ∧ p.1.isSuffixOf r = true ∧
        applyRep r p = r.take (r.length - p.1.length) ++ p.2)) ∧
    '/' ∉ applyRep r p := by
  have hval : '/' ∉ p.2 := by
    have : ∀ q ∈ replacements, '/' ∉ q.2 := by decide
    exact this p hp
  unfold applyRep
  by_cases hs : p.1.isSuffixOf r
  · rw [if_pos hs]
    constructor
    · by_cases hid : p.1 = p.2
      · left
        rw [← hid]
        exact take_append_of_isSuffixOf r p.1 hs
      · exact Or.inr ⟨hid, hs, rfl⟩
    · intro hc
      rcases List.mem_append.mp hc with h2 | h2
      · exact h (List.mem_of_mem_take h2)
      · exact hval h2
  · rw [if_neg hs, if_neg (by rw [hasSub_slash_false p.1 r h]; exact Bool.false_ne_true)]
    exact ⟨Or.inl rfl, h⟩

theorem nonident_new_mem_newSuffixes :
    ∀ p ∈ replacements, p.1 ≠ p.2 → p.2 ∈ newSuffixes := by decide

theorem newSuffixes_old_incompat :
    ∀ v ∈ newSuffixes, ∀ p ∈ replacements, p.1 ≠ p.2 →
      v.isSuffixOf p.1 = false ∧ p.1.isSuffixOf v = false := by decide

theorem applyRep_fix (r : List Char) (p : List Char × List Char)
    (hp : p ∈ replacements) (hsl : '/' ∉ r)
    (hP : ∃ v ∈ newSuffixes, v <:+ r) : applyRep r p = r := by
  rcases (applyRep_slashfree r p hp hsl).1 with h | ⟨hid, hs, h⟩
  · exact h
  · exfalso
    obtain ⟨v, hv, hvr⟩ := hP
    have hps : p.1 <:+ r := List.isSuffixOf_iff_suffix.mp hs
    rcases List.suffix_or_suffix_of_suffix hvr hps with h2 | h2
    · have := (newSuffixes_old_incompat v hv p hp hid).1
      rw [List.isSuffixOf_iff_suffix.mpr h2] at this
      cases this
    · have := (newSuffixes_old_incompat v hv p hp hid).2
      rw [List.isSuffixOf_iff_suffix.mpr h2] at this
      cases this

theorem foldl_applyRep_fix :
    ∀ (rules : List (List Char × List Char)), (∀ p ∈ rules, p ∈ replacements) →
    ∀ r : List Char, '/' ∉ r → (∃ v ∈ newSuffixes, v <:+ r) →
      rules.foldl applyRep r = r := by
  intro rules
  induction rules with
  | nil => exact fun _ r _ _ => rfl
  | cons p ps ih =>
    intro hsub r hsl hP
    simp only [List.foldl_cons]
    rw [applyRep_fix r p (hsub p (List.mem_cons_self _ _)) hsl hP]
    exact ih (fun q hq => hsub q (List.mem_cons.mpr (Or.inr hq))) r hsl hP

theorem foldl_applyRep_cases :
    ∀ (rules : List (List Char × List Char)), (∀ p ∈ rules, p ∈ replacements) →
    ∀ r : List Char, '/' ∉ r →
      rules.foldl applyRep r = r ∨
        ((∃ v ∈ newSuffixes, v <:+ rules.foldl applyRep r) ∧
          '/' ∉ rules.foldl applyRep r) := by
  intro rules
  induction rules with
  | nil => exact fun _ r _ => Or.inl rfl
  | cons p ps ih =>
    intro hsub r hsl
    have hpmem : p ∈ replacements := hsub p (List.mem_cons_self _ _)
    have hps : ∀ q ∈ ps, q ∈ replacements := fun q hq =>
      hsub q (List.mem_cons.mpr (Or.inr hq))
    simp only [List.foldl_cons]
    obtain ⟨hshape, hsl2⟩ := applyRep_slashfree r p hpmem hsl
    rcases hshape with h | ⟨hid, _, h⟩
    · rw [h]
      exact ih hps r hsl
    · rw [h]
      have hP : ∃ v ∈ newSuffixes, v <:+ r.take (r.length - p.1.length) ++ p.2 :=
        ⟨p.2, nonident_new_mem_newSuffixes p hpmem hid, List.suffix_append _ _⟩
      have hsl3 : '/' ∉ r.take (r.length - p.1.length) ++ p.2 := h ▸ hsl2
      rw [foldl_applyRep_fix ps hps _ hsl3 hP]
      exact Or.inr ⟨hP, hsl3⟩

theorem runReplacements_idem (s : List Char) (hsl : '/' ∉ s) :
    runReplacements (runReplacements s) = runReplacements s := by
  rcases foldl_applyRep_cases replacements (fun p hp => hp) s hsl with h | ⟨hP, hsl2⟩
  · unfold runReplacements
    rw [h]
    exact h
  · exact foldl_applyRep_fix replacements (fun p hp => hp) _ hsl2 hP

theorem head_dropWhile_not (p : Char → Bool) :
    ∀ (l : List Char) (c : Char), (l.dropWhile p).head? = some c → ¬ p c = true := by
  intro l
  induction l with
  | nil => intro c h; cases h
  | cons a ls ih =>
    intro c h
    rw [List.dropWhile_cons] at h
    by_cases hpa : p a = true
    · rw [if_pos hpa] at h
      exact ih c h
    · rw [if_neg hpa] at h
      injection h with h2
      subst h2
      exact hpa

theorem getLast?_of_suffix_ne_nil {l1 l2 : List Char} (h : l1 <:+ l2)
    (hne : l1 ≠ []) : l2.getLast? = l1.getLast? := by
  obtain ⟨t, rfl⟩ := h
  rw [List.getLast?_append]
  cases hl : l1.getLast? with
  | none => exact absurd (List.getLast?_eq_none.mp hl) hne
  | some c => rfl

theorem stripL_head_no_ws (l : List Char) :
    ∀ c ∈ (stripL l).head?, ¬ c.isWhitespace := by
  intro c hc
  unfold stripL at hc
  rw [List.head?_reverse] at hc
  have hsuf := List.dropWhile_suffix (l := (l.dropWhile Char.isWhitespace).reverse)
    Char.isWhitespace
  by_cases hne : (l.dropWhile Char.isWhitespace).reverse.dropWhile Char.isWhitespace = []
  · rw [hne] at hc
    cases hc
  · rw [← getLast?_of_suffix_ne_nil hsuf hne, List.getLast?_reverse] at hc
    exact head_dropWhile_not Char.isWhitespace l c hc

theorem stripL_last_no_ws (l : List Char) :
    ∀ c ∈ (stripL l).getLast?, ¬ c.isWhitespace := by
  intro c hc
  unfold stripL at hc
  rw [List.getLast?_reverse] at hc
  exact head_dropWhile_not Char.isWhitespace _ c hc

theorem stripL_eq_self_of_ends (x : List Char)
    (hh : ∀ c ∈ x.head?, ¬ c.isWhitespace)
    (hl : ∀ c ∈ x.getLast?, ¬ c.isWhitespace) : stripL x = x := by
  unfold stripL
  have h1 : x.dropWhile Char.isWhitespace = x := by
    cases x with
    | nil => rfl
    | cons c cs =>
      rw [List.dropWhile_cons, if_neg (by simpa using hh c rfl)]
  rw [h1]
  have h2 : x.reverse.dropWhile Char.isWhitespace = x.reverse := by
    cases hr : x.reverse with
    | nil => rfl
    | cons c cs =>
      rw [List.dropWhile_cons, if_neg]
      have : x.getLast? = some c := by
        rw [← List.head?_reverse, hr]
        rfl
      simpa using hl c this
  rw [h2, List.reverse_reverse]

theorem stripL_idem (l : List Char) : stripL (stripL l) = stripL l :=
  stripL_eq_self_of_ends (stripL l) (stripL_head_no_ws l) (stripL_last_no_ws l)

theorem mem_of_mem_stripL (c : Char) (l : List Char) (hc : c ∈ stripL l) : c ∈ l := by
  unfold stripL at hc
  rw [List.mem_reverse] at hc
  exact List.IsSuffix.mem (List.mem_reverse.mp
    (List.IsSuffix.mem hc (List.dropWhile_suffix Char.isWhitespace)))
    (List.dropWhile_suffix Char.isWhitespace)

theorem head?_take_cases (n : ℕ) (l : List Char) :
    List.take n l = [] ∨ (List.take n l).head? = l.head? := by
  cases n with
  | zero => exact Or.inl rfl
  | succ k =>
    cases l with
    | nil => exact Or.inl rfl
    | cons c cs => exact Or.inr rfl

theorem applyRep_ends (r : List Char) (p : List Char × List Char)
    (hp : p ∈ replacements) (hsl : '/' ∉ r) (hne : r ≠ [])
    (hh : ∀ c ∈ r.head?, ¬ c.isWhitespace)
    (hl : ∀ c ∈ r.getLast?, ¬ c.isWhitespace) :
    applyRep r p ≠ [] ∧ (∀ c ∈ (applyRep r p).head?, ¬ c.isWhitespace) ∧
      (∀ c ∈ (applyRep r p).getLast?, ¬ c.isWhitespace) := by
  have facts : ∀ q ∈ replacements, q.2 ≠ [] ∧ (∀ c ∈ q.2.head?, ¬ c.isWhitespace) ∧
      ∀ c ∈ q.2.getLast?, ¬ c.isWhitespace := by decide
  obtain ⟨hqne, hqh, hql⟩ := facts p hp
  rcases (applyRep_slashfree r p hp hsl).1 with h | ⟨_, _, h⟩
  · rw [h]
    exact ⟨hne, hh, hl⟩
  · rw [h]
    refine ⟨?_, ?_, ?_⟩
    · intro e
      exact hqne (List.append_eq_nil.mp e).2
    · intro c hc
      rw [List.head?_append] at hc
      rcases head?_take_cases (r.length - p.1.length) r with ht | ht
      · rw [ht] at hc
        simp only [List.head?_nil, Option.none_or] at hc
        exact hqh c hc
      · rw [ht] at hc
        cases hr : r.head? with
        | none => exact absurd (List.head?_eq_none_iff.mp hr) hne
        | some a =>
          rw [hr] at hc
          simp only [Option.or_some, Option.mem_def] at hc
          cases hc
          exact hh _ hr
    · intro c hc
      rw [List.getLast?_append] at hc
      cases hq : p.2.getLast? with
      | none => exact absurd (List.getLast?_eq_none.mp hq) hqne
      | some d =>
        rw [hq] at hc
        simp only [Option.or_some, Option.mem_def] at hc
        cases hc
        exact hql _ hq

theorem foldl_applyRep_ends :
    ∀ (rules : List (List Char × List Char)), (∀ p ∈ rules, p ∈ replacements) →
    ∀ r : List Char, '/' ∉ r → r ≠ [] →
      (∀ c ∈ r.head?, ¬ c.isWhitespace) → (∀ c ∈ r.getLast?, ¬ c.isWhitespace) →
      rules.foldl applyRep r ≠ [] ∧
        (∀ c ∈ (rules.foldl applyRep r).head?, ¬ c.isWhitespace) ∧
        (∀ c ∈ (rules.foldl applyRep r).getLast?, ¬ c.isWhitespace) := by
  intro rules
  induction rules with
  | nil => exact fun _ r _ hne hh hl => ⟨hne, hh, hl⟩
  | cons p ps ih =>
    intro hsub r hsl hne hh hl
    have hpmem : p ∈ replacements := hsub p (List.mem_cons_self _ _)
    obtain ⟨hne2, hh2, hl2⟩ := applyRep_ends r p hpmem hsl hne hh hl
    have hsl2 : '/' ∉ applyRep r p := (applyRep_slashfree r p hpmem hsl).2
    exact ih (fun q hq => hsub q (List.mem_cons.mpr (Or.inr hq))) _ hsl2 hne2 hh2 hl2

/-- C2 counterexample: normalization is not idempotent on slash chords. The elif chain in `normalize_chord_symbol` rewrites only the last matching suffix per pass, so `"Cm/Gm"` maps to `"Cm/G-"` (the bass `m` becomes `-`), and a second application rewrites the remaining suffix before the slash, giving a different string. -/
theorem normalize_not_idempotent_on_slash :
    normalize_chord_symbol "Cm/Gm" = "Cm/G-" ∧
    normalize_chord_symbol (normalize_chord_symbol "Cm/Gm") = "C-/G-" ∧
    normalize_chord_symbol (normalize_chord_symbol "Cm/Gm") ≠
      normalize_chord_symbol "Cm/Gm" := by
  decide

/-- C2 (amended): for every input whose characters do not include the slash `/`, `normalize_chord_symbol` is idempotent: applying it twice gives the same result as applying it once. (The original claim, idempotence on all inputs, fails on slash chords; see the counterexample.) -/
theorem normalize_idempotent_without_slash (l : List Char) (h : '/' ∉ l) :
    normalize_chord_symbol_data (normalize_chord_symbol_data l) =
      normalize_chord_symbol_data l := by
  by_cases hs : stripL l ∈ sentinels
  · have e1 : normalize_chord_symbol_data l = stripL l := by
      unfold normalize_chord_symbol_data
      rw [if_pos hs]
    rw [e1]
    unfold normalize_chord_symbol_data
    rw [stripL_idem l, if_pos hs]
  · have e1 : normalize_chord_symbol_data l = runReplacements (stripL l) := by
      unfold normalize_chord_symbol_data
      rw [if_neg hs]
    have hsl : '/' ∉ stripL l := fun hc => h (mem_of_mem_stripL '/' l hc)
    have hne : stripL l ≠ [] := by
      intro e
      apply hs
      rw [e]
      decide
    obtain ⟨hne2, hh2, hl2⟩ := foldl_applyRep_ends replacements (fun p hp => hp)
      (stripL l) hsl hne (stripL_head_no_ws l) (stripL_last_no_ws l)
    have hstrip : stripL (runReplacements (stripL l)) = runReplacements (stripL l) :=
      stripL_eq_self_of_ends _ hh2 hl2
    rw [e1]
    unfold normalize_chord_symbol_data
    rw [hstrip]
    by_cases hts : runReplacements (stripL l) ∈ sentinels
    · rw [if_pos hts]
    · rw [if_neg hts]
      exact runReplacements_idem (stripL l) hsl

theorem normalize_idempotent_without_slash_witness :
    ('/' ∉ "Cmaj7".data ∧
      normalize_chord_symbol_data (normalize_chord_symbol_data "Cmaj7".data) =
        normalize_chord_symbol_data "Cmaj7".data) ∧
    ('/' ∉ "Cdim".data ∧
      normalize_chord_symbol_data (normalize_chord_symbol_data "Cdim".data) =
        normalize_chord_symbol_data "Cdim".data) :=
  ⟨⟨by decide, normalize_idempotent_without_slash "Cmaj7".data (by decide)⟩,
   ⟨by decide, normalize_idempotent_without_slash "Cdim".data (by decide)⟩⟩
